import Mathlib

/-!
Verification development for the AMF0 decoder in `amf0/amf.go`
(package `amf0` of `goamf`).

The Go code is shallowly embedded here:

* the `io.Reader` byte stream is a `List Nat` of bytes (a finite stream
  whose end is EOF);
* the mutable `Parser` struct (reader position, `references` slice,
  `bytesRead` counter) is an explicit state record `PState` threaded
  through every function;
* Go `panic`/`recover` control flow is an explicit error alternative in
  each result type; `Parse`'s `recover` block corresponds to the
  `GoReturn` record assembled in `Parse`;
* IEEE-754 doubles are never computed with: the Go code only stores
  `math.Float64frombits` of the raw 8 bytes, so payloads keep the raw
  big-endian 64-bit pattern as a `Nat`;
* Go strings produced by `string(data)` are kept as the raw byte list
  `List Nat`;
* general recursion of the decoder is made total with a fuel parameter;
  fuel exhaustion is a separate outcome (`out`), distinct from both
  success and every error the Go code can produce.
-/

namespace Amf0

/-! ### Marker constants (the `Marker` constants of the source) -/

def Number : Nat := 0x00
def Boolean : Nat := 0x01
def String : Nat := 0x02
def Object : Nat := 0x03
def Movieclip : Nat := 0x04
def Null : Nat := 0x05
def Undefined : Nat := 0x06
def Reference : Nat := 0x07
def ECMAArray : Nat := 0x08
def ObjectEnd : Nat := 0x09
def StrictArray : Nat := 0x0A
def Date : Nat := 0x0B
def LongString : Nat := 0x0C
def Unsupported : Nat := 0x0D
def Recordset : Nat := 0x0E
def XmlDocument : Nat := 0x0F
def TypedObject : Nat := 0x10
def AvmPlusObject : Nat := 0x11

/-! ### The `Value` struct

`Value` has fields `Marker`, `Name`, `Value interface{}`.  The
`interface{}` payload only ever holds: a float64 (kept as its 64-bit
pattern), a bool, a string (kept as bytes), a `[]*Value`, or `nil`. -/

mutual
inductive Payload : Type where
  | vnum : Nat → Payload
  | vbool : Bool → Payload
  | vstr : List Nat → Payload
  | varr : List Value → Payload
  | vnil : Payload
inductive Value : Type where
  | mk : Nat → List Nat → Payload → Value
end

def Value.marker : Value → Nat
  | .mk m _ _ => m

def Value.name : Value → List Nat
  | .mk _ n _ => n

def Value.payload : Value → Payload
  | .mk _ _ p => p

def Value.withPayload : Value → Payload → Value
  | .mk m n _, p => .mk m n p

def Value.withName : Value → List Nat → Value
  | .mk m _ p, n => .mk m n p

/-! ### Errors

Each constructor names one of the `panic` sites of the source (all of
them are recovered in `Parse` and surface as the returned `error`). -/

inductive AmfError : Type where
  /-- Go `io.ReadFull` returned an error in `readBytes`. -/
  | shortRead : AmfError
  /-- The `panic("reference index is greater, than the amount of available reference objects")`. -/
  | invalidReference : AmfError
  /-- the `panic` for a zero-length property key not followed by `ObjectEnd`. -/
  | malformedStream : AmfError
  /-- The `panic(fmt.Sprintf("unsupported type %d", ...))` for Unsupported, Recordset, Movieclip. -/
  | unsupportedType : Nat → AmfError
  /-- The `panic("amf3 is not supported")` for AvmPlusObject. -/
  | unsupportedVersion : AmfError
  /-- the runtime panic of `make([]byte, n)` with negative `n` (a 4-byte
      string length whose int32 reading is negative). -/
  | badSliceLength : AmfError

/-! ### Parser state -/

/-- The mutable part of the Go `Parser` struct: the unread rest of the
reader's stream, the `references` slice and the `bytesRead` counter. -/
structure PState : Type where
  input : List Nat
  references : List Value
  bytesRead : Nat

/-- Function `New(reader)`: a `Parser` with nil `references` and zero `bytesRead`. -/
def New (input : List Nat) : PState :=
  { input := input, references := [], bytesRead := 0 }

/-- Big-endian reading of a byte list (`binary.BigEndian.Uint16/32/64`). -/
def beBytes (l : List Nat) : Nat :=
  l.foldl (fun a b => a * 256 + b) 0

/-- Reading of a `uint32` bit pattern as Go `int32`. -/
def toInt32 (n : Nat) : Int :=
  if n % 2 ^ 32 < 2 ^ 31 then (n % 2 ^ 32 : Int) else (n % 2 ^ 32 : Int) - 2 ^ 32

/-- Function `readBytes`: `io.ReadFull` into a buffer of `n` bytes.  The counter
grows by the number of bytes actually obtained, also on the partial read
that precedes the `panic(err)` (`p.bytesRead += n` happens first). -/
def readBytes (n : Nat) (st : PState) : Option (List Nat) × PState :=
  if st.input.length < n then
    (none, { st with input := [], bytesRead := st.bytesRead + st.input.length })
  else
    (some (st.input.take n), { st with input := st.input.drop n, bytesRead := st.bytesRead + n })

/-- Function `readString`: a 2-byte length for `String`, a 4-byte length (read as
int32, possibly negative) for `LongString`/`XmlDocument`, length 0 for
any other marker; then the bytes themselves.  Returns (bytes, length). -/
def readString (marker : Nat) (st : PState) : Except AmfError (List Nat × Nat) × PState :=
  if marker = Amf0.String then
    match readBytes 2 st with
    | (none, st1) => (.error .shortRead, st1)
    | (some data, st1) =>
      let nameLength := beBytes data
      match readBytes nameLength st1 with
      | (none, st2) => (.error .shortRead, st2)
      | (some s, st2) => (.ok (s, nameLength), st2)
  else if marker = Amf0.LongString ∨ marker = Amf0.XmlDocument then
    match readBytes 4 st with
    | (none, st1) => (.error .shortRead, st1)
    | (some data, st1) =>
      let nameLength := toInt32 (beBytes data)
      if nameLength < 0 then (.error .badSliceLength, st1)
      else
        match readBytes nameLength.toNat st1 with
        | (none, st2) => (.error .shortRead, st2)
        | (some s, st2) => (.ok (s, nameLength.toNat), st2)
  else
    match readBytes 0 st with
    | (none, st1) => (.error .shortRead, st1)
    | (some s, st1) => (.ok (s, 0), st1)

/-- Function `readDouble`: 8 bytes, kept as the big-endian 64-bit pattern. -/
def readDouble (st : PState) : Option Nat × PState :=
  match readBytes 8 st with
  | (none, st1) => (none, st1)
  | (some data, st1) => (some (beBytes data), st1)

/-- Outcome of `parseValue` on one `*Value`.  On `err` the second
component is the pointed-to `Value` as mutated so far (the caller
`Parse` can still observe it through its named return variable). -/
inductive VRes : Type where
  | ok : Value → VRes
  | err : AmfError → Value → VRes
  | out : VRes

/-- Outcome of `parseProperties` / of the StrictArray element loop. -/
inductive LRes : Type where
  | ok : List Value → LRes
  | err : AmfError → LRes
  | out : LRes

/-! The body of each arm of the `switch value.Marker` dispatch is its
own small definition, so that each arm can be reasoned about on its
own.  The arms that recurse take the already-computed result of the
recursive call as an argument. -/

/-- Arm `case Number`: 8 bytes read by `readDouble`. -/
def caseNumber (value : Value) (st : PState) : VRes × PState :=
  match readDouble st with
  | (none, st1) => (.err .shortRead value, st1)
  | (some bits, st1) => (.ok (value.withPayload (.vnum bits)), st1)

/-- Arm `case Boolean`: one byte, payload `data[0] != 0`. -/
def caseBoolean (value : Value) (st : PState) : VRes × PState :=
  match readBytes 1 st with
  | (none, st1) => (.err .shortRead value, st1)
  | (some data, st1) => (.ok (value.withPayload (.vbool (data.headD 0 != 0))), st1)

/-- Arm `case LongString, XmlDocument, String`: `readString(value.Marker)`. -/
def caseString (value : Value) (st : PState) : VRes × PState :=
  match readString value.marker st with
  | (.error e, st1) => (.err e value, st1)
  | (.ok (s, _), st1) => (.ok (value.withPayload (.vstr s)), st1)

/-- Arm `case Reference`: a 2-byte index resolved against `p.references`;
the Go bound check is `int(index) > len(p.references)-1` on signed
integers.  On success the resolved entry's `Value` and `Marker` are
copied onto this value (its own `Name` stays). -/
def caseReference (value : Value) (st : PState) : VRes × PState :=
  match readBytes 2 st with
  | (none, st1) => (.err .shortRead value, st1)
  | (some data, st1) =>
    let index := beBytes data
    if (index : Int) > (st1.references.length : Int) - 1 then
      (.err .invalidReference value, st1)
    else
      let ref := st1.references.getD index (Value.mk 0 [] .vnil)
      (.ok (Value.mk ref.marker value.name ref.payload), st1)

/-- Arm `case Date`: a discarded 2-byte timezone then 8 bytes of double. -/
def caseDate (value : Value) (st : PState) : VRes × PState :=
  match readBytes 2 st with
  | (none, st1) => (.err .shortRead value, st1)
  | (some _, st1) =>
    match readBytes 8 st1 with
    | (none, st2) => (.err .shortRead value, st2)
    | (some data, st2) => (.ok (value.withPayload (.vnum (beBytes data))), st2)

/-- Shared tail of the `Object`, `ECMAArray` and `TypedObject` arms:
store the decoded property list as the payload and append the finished
value to `p.references`. -/
def register (value : Value) : LRes × PState → VRes × PState
  | (.err e, st1) => (.err e value, st1)
  | (.out, st1) => (.out, st1)
  | (.ok props, st1) =>
    let v := value.withPayload (.varr props)
    (.ok v, { st1 with references := st1.references ++ [v] })

/-- Tail of the `StrictArray` arm: store the collected elements (no
reference registration happens for a StrictArray). -/
def finishArray (value : Value) : LRes × PState → VRes × PState
  | (.err e, st1) => (.err e value, st1)
  | (.out, st1) => (.out, st1)
  | (.ok values, st1) => (.ok (value.withPayload (.varr values)), st1)

/-- The zero-length-key branch of `parseProperties`: the next byte must
be `ObjectEnd`, else the decoder fails. -/
def checkEnd : Option (List Nat) × PState → LRes × PState
  | (none, st2) => (.err .shortRead, st2)
  | (some data, st2) =>
    if data.headD 0 = Amf0.ObjectEnd then (.ok [], st2)
    else (.err .malformedStream, st2)

/-- Prepend an accumulated element to the result of the rest of a loop
(`append(properties, property)` / `append(values, arrayValue)`). -/
def consRes (v : Value) : LRes × PState → LRes × PState
  | (.err e, st4) => (.err e, st4)
  | (.out, st4) => (.out, st4)
  | (.ok rest, st4) => (.ok (v :: rest), st4)

mutual

/-- Function `parseValue`: the dispatch switch on `value.Marker`. -/
def parseValue : Nat → Value → PState → VRes × PState
  | 0, _, st => (.out, st)
  | f + 1, value, st =>
    if value.marker = Amf0.Number then caseNumber value st
    else if value.marker = Amf0.Boolean then caseBoolean value st
    else if value.marker = Amf0.LongString ∨ value.marker = Amf0.XmlDocument ∨
        value.marker = Amf0.String then caseString value st
    else if value.marker = Amf0.Object then register value (parseProperties f st)
    else if value.marker = Amf0.Null ∨ value.marker = Amf0.Undefined then
      (.ok (value.withPayload .vnil), st)
    else if value.marker = Amf0.Reference then caseReference value st
    else if value.marker = Amf0.ECMAArray then
      match readBytes 4 st with
      | (none, st1) => (.err .shortRead value, st1)
      | (some _, st1) => register value (parseProperties f st1)
    else if value.marker = Amf0.StrictArray then
      match readBytes 4 st with
      | (none, st1) => (.err .shortRead value, st1)
      | (some data, st1) =>
        match readBytes 1 st1 with
        | (none, st2) => (.err .shortRead value, st2)
        | (some data2, st2) =>
          finishArray value (parseArray f (data2.headD 0) (beBytes data) st2)
    else if value.marker = Amf0.Date then caseDate value st
    else if value.marker = Amf0.TypedObject then
      match readString Amf0.String st with
      | (.error e, st1) => (.err e value, st1)
      | (.ok (nameBytes, _), st1) =>
        register (value.withName nameBytes) (parseProperties f st1)
    else if value.marker = Amf0.AvmPlusObject then
      (.err .unsupportedVersion value, st)
    else if value.marker = Amf0.Unsupported ∨ value.marker = Amf0.Recordset ∨
        value.marker = Amf0.Movieclip then
      (.err (.unsupportedType value.marker) value, st)
    else
      (.ok value, st)

/-- Function `parseProperties`: the (name, value) loop ended by a zero-length key
followed by the `ObjectEnd` byte. -/
def parseProperties : Nat → PState → LRes × PState
  | 0, st => (.out, st)
  | f + 1, st =>
    match readString Amf0.String st with
    | (.error e, st1) => (.err e, st1)
    | (.ok (name, nameLength), st1) =>
      if nameLength = 0 then
        checkEnd (readBytes 1 st1)
      else
        match readBytes 1 st1 with
        | (none, st2) => (.err .shortRead, st2)
        | (some data, st2) =>
          match parseValue f (Value.mk (data.headD 0) name .vnil) st2 with
          | (.err e _, st3) => (.err e, st3)
          | (.out, st3) => (.out, st3)
          | (.ok pv, st3) => consRes pv (parseProperties f st3)

/-- The StrictArray element loop: `n` values, all created with the one
`arrayMarker` tag byte. -/
def parseArray : Nat → Nat → Nat → PState → LRes × PState
  | 0, _, _, st => (.out, st)
  | _ + 1, _, 0, st => (.ok [], st)
  | f + 1, arrayMarker, k + 1, st =>
      match parseValue f (Value.mk arrayMarker [] .vnil) st with
      | (.err e _, st1) => (.err e, st1)
      | (.out, st1) => (.out, st1)
      | (.ok v, st1) => consRes v (parseArray f arrayMarker k st1)

end

/-- The three named returns of `Parse` (`value`, `bytesRead`, `err`). -/
structure GoReturn : Type where
  value : Option Value
  bytesRead : Nat
  error : Option AmfError

/-- Function `Parse`: read the leading tag byte, build the `Value`, dispatch.  On
a panic the deferred `recover` only assigns the named return `err`: the
named returns `value` and `bytesRead` keep whatever they held when the
panic fired, so `bytesRead` is returned as its zero value `0` (the
statement `return value, p.bytesRead, nil` was never reached) and
`value` is `nil` (leading read failed) or the partially mutated struct. -/
def Parse (fuel : Nat) (st : PState) : Option GoReturn × PState :=
  match readBytes 1 st with
  | (none, st1) => (some { value := none, bytesRead := 0, error := some .shortRead }, st1)
  | (some data, st1) =>
    let marker := data.headD 0
    let value := Value.mk marker [] .vnil
    match parseValue fuel value st1 with
    | (.ok v, st2) => (some { value := some v, bytesRead := st2.bytesRead, error := none }, st2)
    | (.err e pv, st2) => (some { value := some pv, bytesRead := 0, error := some e }, st2)
    | (.out, st2) => (none, st2)

/-! ### State evolution

`Step st st'` packages the facts that hold between the parser state at
the start and at the end of any decoding operation: the `bytesRead`
counter grows by exactly the number of bytes removed from the input
stream, it never shrinks, and the `references` slice is only appended
to. -/

def Step (st st' : PState) : Prop :=
  st'.bytesRead + st'.input.length = st.bytesRead + st.input.length ∧
  st.bytesRead ≤ st'.bytesRead ∧
  ∃ l, st'.references = st.references ++ l


/-! ### No backreference tag survives in a decoded tree -/

mutual
/-- No node of this value tree (at any depth) carries the backreference
tag `Reference`. -/
def cleanV : Value → Bool
  | .mk m _ p => (m != Amf0.Reference) && cleanP p
def cleanP : Payload → Bool
  | .varr l => cleanL l
  | _ => true
def cleanL : List Value → Bool
  | [] => true
  | v :: t => cleanV v && cleanL t
end


/-- The statement of the cleanliness invariant for a value-level result. -/
abbrev CleanVRes (r : VRes × PState) : Prop :=
  cleanL r.2.references = true ∧ ∀ v', r.1 = VRes.ok v' → cleanV v' = true

/-- The statement of the cleanliness invariant for a list-level result. -/
abbrev CleanLRes (r : LRes × PState) : Prop :=
  cleanL r.2.references = true ∧ ∀ l, r.1 = LRes.ok l → cleanL l = true


theorem Step.refl {st : PState} : Step st st :=
  ⟨Eq.refl _, le_refl _, [], (List.append_nil _).symm⟩

theorem Step.trans {s1 s2 s3 : PState} (h1 : Step s1 s2) (h2 : Step s2 s3) : Step s1 s3 := by
  obtain ⟨e1, m1, l1, r1⟩ := h1
  obtain ⟨e2, m2, l2, r2⟩ := h2
  exact ⟨by omega, le_trans m1 m2, l1 ++ l2, by rw [r2, r1, List.append_assoc]⟩

theorem readBytes_step (n : Nat) (st : PState) : Step st (readBytes n st).2 := by
  unfold readBytes
  split
  · exact ⟨by simp, by simp, [], by simp⟩
  · refine ⟨?_, by simp, [], by simp⟩
    simp only [List.length_drop]
    omega

theorem readBytes_refs (n : Nat) (st : PState) : ((readBytes n st).2).references = st.references := by
  unfold readBytes; split <;> rfl

theorem readString_step (marker : Nat) (st : PState) : Step st (readString marker st).2 := by
  unfold readString
  split
  · rcases h1 : readBytes 2 st with ⟨d1, st1⟩
    have s1 := readBytes_step 2 st; rw [h1] at s1
    cases d1 with
    | none => simpa using s1
    | some data =>
      simp only
      rcases h2 : readBytes (beBytes data) st1 with ⟨d2, st2⟩
      have s2 := readBytes_step (beBytes data) st1; rw [h2] at s2
      cases d2 <;> simpa using Step.trans s1 s2
  split
  · rcases h1 : readBytes 4 st with ⟨d1, st1⟩
    have s1 := readBytes_step 4 st; rw [h1] at s1
    cases d1 with
    | none => simpa using s1
    | some data =>
      simp only
      split
      · simpa using s1
      · rcases h2 : readBytes (toInt32 (beBytes data)).toNat st1 with ⟨d2, st2⟩
        have s2 := readBytes_step (toInt32 (beBytes data)).toNat st1; rw [h2] at s2
        cases d2 <;> simpa using Step.trans s1 s2
  · rcases h1 : readBytes 0 st with ⟨d1, st1⟩
    have s1 := readBytes_step 0 st; rw [h1] at s1
    cases d1 <;> simpa using s1

theorem readDouble_step (st : PState) : Step st (readDouble st).2 := by
  unfold readDouble
  rcases h1 : readBytes 8 st with ⟨d1, st1⟩
  have s1 := readBytes_step 8 st; rw [h1] at s1
  cases d1 <;> simpa using s1

/-- The state append for registering a reference is a `Step`. -/
theorem append_step (st : PState) (v : Value) :
    Step st { st with references := st.references ++ [v] } :=
  ⟨rfl, le_refl _, [v], rfl⟩

theorem register_step (v : Value) (r : LRes × PState) : Step r.2 (register v r).2 := by
  rcases r with ⟨res, st1⟩
  cases res with
  | ok props => exact append_step st1 _
  | err e => exact Step.refl
  | out => exact Step.refl

theorem finishArray_state (v : Value) (r : LRes × PState) : (finishArray v r).2 = r.2 := by
  rcases r with ⟨res, st1⟩; cases res <;> rfl

theorem consRes_state (v : Value) (r : LRes × PState) : (consRes v r).2 = r.2 := by
  rcases r with ⟨res, st1⟩; cases res <;> rfl

theorem checkEnd_state (r : Option (List Nat) × PState) : (checkEnd r).2 = r.2 := by
  rcases r with ⟨d, st1⟩
  cases d with
  | none => rfl
  | some data => simp only [checkEnd]; split <;> rfl

theorem caseNumber_step (v : Value) (st : PState) : Step st (caseNumber v st).2 := by
  unfold caseNumber
  rcases h1 : readDouble st with ⟨d1, st1⟩
  have s1 := readDouble_step st; rw [h1] at s1
  cases d1 <;> simpa using s1

theorem caseBoolean_step (v : Value) (st : PState) : Step st (caseBoolean v st).2 := by
  unfold caseBoolean
  rcases h1 : readBytes 1 st with ⟨d1, st1⟩
  have s1 := readBytes_step 1 st; rw [h1] at s1
  cases d1 <;> simpa using s1

theorem caseString_step (v : Value) (st : PState) : Step st (caseString v st).2 := by
  unfold caseString
  rcases h1 : readString v.marker st with ⟨d1, st1⟩
  have s1 := readString_step v.marker st; rw [h1] at s1
  cases d1 with
  | error e => simpa using s1
  | ok s => rcases s with ⟨s, len⟩; simpa using s1

theorem caseReference_step (v : Value) (st : PState) : Step st (caseReference v st).2 := by
  unfold caseReference
  rcases h1 : readBytes 2 st with ⟨d1, st1⟩
  have s1 := readBytes_step 2 st; rw [h1] at s1
  cases d1 with
  | none => simpa using s1
  | some data => simp only; split <;> simpa using s1

theorem caseDate_step (v : Value) (st : PState) : Step st (caseDate v st).2 := by
  unfold caseDate
  rcases h1 : readBytes 2 st with ⟨d1, st1⟩
  have s1 := readBytes_step 2 st; rw [h1] at s1
  cases d1 with
  | none => simpa using s1
  | some data =>
    simp only
    rcases h2 : readBytes 8 st1 with ⟨d2, st2⟩
    have s2 := readBytes_step 8 st1; rw [h2] at s2
    cases d2 <;> simpa using Step.trans s1 s2

/-- Case principle for one unfolding of `parseValue` at nonzero fuel:
one hypothesis per arm of the `switch value.Marker` dispatch. -/
theorem parseValue_succ_cases (f : Nat) (v : Value) (st : PState)
    (motive : VRes × PState → Prop)
    (h0 : v.marker = Amf0.Number → motive (caseNumber v st))
    (h1 : v.marker = Amf0.Boolean → motive (caseBoolean v st))
    (h2 : v.marker = Amf0.LongString ∨ v.marker = Amf0.XmlDocument ∨ v.marker = Amf0.String →
      motive (caseString v st))
    (h3 : v.marker = Amf0.Object → motive (register v (parseProperties f st)))
    (h4 : v.marker = Amf0.Null ∨ v.marker = Amf0.Undefined →
      motive (.ok (v.withPayload .vnil), st))
    (h5 : v.marker = Amf0.Reference → motive (caseReference v st))
    (h6 : v.marker = Amf0.ECMAArray →
      motive (match readBytes 4 st with
        | (none, st1) => (.err .shortRead v, st1)
        | (some _, st1) => register v (parseProperties f st1)))
    (h7 : v.marker = Amf0.StrictArray →
      motive (match readBytes 4 st with
        | (none, st1) => (.err .shortRead v, st1)
        | (some data, st1) =>
          match readBytes 1 st1 with
          | (none, st2) => (.err .shortRead v, st2)
          | (some data2, st2) =>
            finishArray v (parseArray f (data2.headD 0) (beBytes data) st2)))
    (h8 : v.marker = Amf0.Date → motive (caseDate v st))
    (h9 : v.marker = Amf0.TypedObject →
      motive (match readString Amf0.String st with
        | (.error e, st1) => (.err e v, st1)
        | (.ok (nameBytes, _), st1) => register (v.withName nameBytes) (parseProperties f st1)))
    (h10 : v.marker = Amf0.AvmPlusObject → motive (.err .unsupportedVersion v, st))
    (h11 : v.marker = Amf0.Unsupported ∨ v.marker = Amf0.Recordset ∨ v.marker = Amf0.Movieclip →
      motive (.err (.unsupportedType v.marker) v, st))
    (hd : ¬(v.marker = Amf0.Number) → ¬(v.marker = Amf0.Boolean) →
      ¬(v.marker = Amf0.LongString ∨ v.marker = Amf0.XmlDocument ∨ v.marker = Amf0.String) →
      ¬(v.marker = Amf0.Object) → ¬(v.marker = Amf0.Null ∨ v.marker = Amf0.Undefined) →
      ¬(v.marker = Amf0.Reference) → ¬(v.marker = Amf0.ECMAArray) →
      ¬(v.marker = Amf0.StrictArray) → ¬(v.marker = Amf0.Date) →
      ¬(v.marker = Amf0.TypedObject) → ¬(v.marker = Amf0.AvmPlusObject) →
      ¬(v.marker = Amf0.Unsupported ∨ v.marker = Amf0.Recordset ∨ v.marker = Amf0.Movieclip) →
      motive (.ok v, st)) :
    motive (parseValue (f + 1) v st) := by
  rw [parseValue]
  by_cases c0 : v.marker = Amf0.Number
  · rw [if_pos c0]; exact h0 c0
  rw [if_neg c0]
  by_cases c1 : v.marker = Amf0.Boolean
  · rw [if_pos c1]; exact h1 c1
  rw [if_neg c1]
  by_cases c2 : v.marker = Amf0.LongString ∨ v.marker = Amf0.XmlDocument ∨ v.marker = Amf0.String
  · rw [if_pos c2]; exact h2 c2
  rw [if_neg c2]
  by_cases c3 : v.marker = Amf0.Object
  · rw [if_pos c3]; exact h3 c3
  rw [if_neg c3]
  by_cases c4 : v.marker = Amf0.Null ∨ v.marker = Amf0.Undefined
  · rw [if_pos c4]; exact h4 c4
  rw [if_neg c4]
  by_cases c5 : v.marker = Amf0.Reference
  · rw [if_pos c5]; exact h5 c5
  rw [if_neg c5]
  by_cases c6 : v.marker = Amf0.ECMAArray
  · rw [if_pos c6]; exact h6 c6
  rw [if_neg c6]
  by_cases c7 : v.marker = Amf0.StrictArray
  · rw [if_pos c7]; exact h7 c7
  rw [if_neg c7]
  by_cases c8 : v.marker = Amf0.Date
  · rw [if_pos c8]; exact h8 c8
  rw [if_neg c8]
  by_cases c9 : v.marker = Amf0.TypedObject
  · rw [if_pos c9]; exact h9 c9
  rw [if_neg c9]
  by_cases c10 : v.marker = Amf0.AvmPlusObject
  · rw [if_pos c10]; exact h10 c10
  rw [if_neg c10]
  by_cases c11 : v.marker = Amf0.Unsupported ∨ v.marker = Amf0.Recordset ∨ v.marker = Amf0.Movieclip
  · rw [if_pos c11]; exact h11 c11
  rw [if_neg c11]
  exact hd c0 c1 c2 c3 c4 c5 c6 c7 c8 c9 c10 c11

theorem parse_step :
    ∀ fuel : Nat,
      (∀ v st, Step st (parseValue fuel v st).2) ∧
      (∀ st, Step st (parseProperties fuel st).2) ∧
      (∀ m n st, Step st (parseArray fuel m n st).2) := by
  intro fuel
  induction fuel with
  | zero =>
    exact ⟨fun v st => Step.refl, fun st => Step.refl, fun m n st => Step.refl⟩
  | succ f ih =>
    obtain ⟨ihv, ihp, iha⟩ := ih
    refine ⟨fun v st => ?_, fun st => ?_, fun m n st => ?_⟩
    · refine parseValue_succ_cases f v st (fun r => Step st r.2)
        (fun _ => caseNumber_step v st) (fun _ => caseBoolean_step v st)
        (fun _ => caseString_step v st)
        (fun _ => Step.trans (ihp st) (register_step _ _))
        (fun _ => Step.refl) (fun _ => caseReference_step v st)
        (fun _ => ?_) (fun _ => ?_) (fun _ => caseDate_step v st)
        (fun _ => ?_) (fun _ => Step.refl) (fun _ => Step.refl)
        (fun _ _ _ _ _ _ _ _ _ _ _ _ => Step.refl)
      · rcases h1 : readBytes 4 st with ⟨d1, st1⟩
        have s1 := readBytes_step 4 st; rw [h1] at s1
        cases d1 with
        | none => simpa using s1
        | some data =>
          simpa using Step.trans (Step.trans s1 (ihp st1)) (register_step _ _)
      · rcases h1 : readBytes 4 st with ⟨d1, st1⟩
        have s1 := readBytes_step 4 st; rw [h1] at s1
        cases d1 with
        | none => simpa using s1
        | some data =>
          simp only
          rcases h2 : readBytes 1 st1 with ⟨d2, st2⟩
          have s2 := readBytes_step 1 st1; rw [h2] at s2
          cases d2 with
          | none => simpa using Step.trans s1 s2
          | some data2 =>
            simp only [finishArray_state]
            exact Step.trans (Step.trans s1 s2) (iha (data2.headD 0) (beBytes data) st2)
      · rcases h1 : readString Amf0.String st with ⟨d1, st1⟩
        have s1 := readString_step Amf0.String st; rw [h1] at s1
        cases d1 with
        | error e => simpa using s1
        | ok nb =>
          rcases nb with ⟨nameBytes, len⟩
          simpa using Step.trans (Step.trans s1 (ihp st1)) (register_step _ _)
    · rw [parseProperties]
      rcases h1 : readString Amf0.String st with ⟨d1, st1⟩
      have s1 := readString_step Amf0.String st; rw [h1] at s1
      cases d1 with
      | error e => simpa using s1
      | ok nb =>
        rcases nb with ⟨name, nameLength⟩
        simp only
        split
        · rw [checkEnd_state]
          exact Step.trans s1 (readBytes_step 1 st1)
        · rcases h2 : readBytes 1 st1 with ⟨d2, st2⟩
          have s2 := readBytes_step 1 st1; rw [h2] at s2
          cases d2 with
          | none => simpa using Step.trans s1 s2
          | some data =>
            simp only
            rcases h3 : parseValue f (Value.mk (data.headD 0) name .vnil) st2 with ⟨d3, st3⟩
            have s3 := ihv (Value.mk (data.headD 0) name .vnil) st2; rw [h3] at s3
            cases d3 with
            | err e pv => simpa using Step.trans (Step.trans s1 s2) s3
            | out => simpa using Step.trans (Step.trans s1 s2) s3
            | ok pv =>
              simp only [consRes_state]
              exact Step.trans (Step.trans (Step.trans s1 s2) s3) (ihp st3)
    · cases n with
      | zero => exact Step.refl
      | succ k =>
        rw [parseArray]
        rcases h1 : parseValue f (Value.mk m [] .vnil) st with ⟨d1, st1⟩
        have s1 := ihv (Value.mk m [] .vnil) st; rw [h1] at s1
        cases d1 with
        | err e pv => simpa using s1
        | out => simpa using s1
        | ok v =>
          simp only [consRes_state]
          exact Step.trans s1 (iha m k st1)

theorem parseValue_step (fuel : Nat) (v : Value) (st : PState) :
    Step st (parseValue fuel v st).2 :=
  (parse_step fuel).1 v st

theorem parseProperties_step (fuel : Nat) (st : PState) :
    Step st (parseProperties fuel st).2 :=
  (parse_step fuel).2.1 st

theorem parseArray_step (fuel m n : Nat) (st : PState) :
    Step st (parseArray fuel m n st).2 :=
  (parse_step fuel).2.2 m n st

theorem Parse_step (fuel : Nat) (st : PState) : Step st (Parse fuel st).2 := by
  unfold Parse
  rcases h1 : readBytes 1 st with ⟨d1, st1⟩
  have s1 := readBytes_step 1 st; rw [h1] at s1
  cases d1 with
  | none => simpa using s1
  | some data =>
    simp only
    rcases h2 : parseValue fuel (Value.mk (data.headD 0) [] .vnil) st1 with ⟨d2, st2⟩
    have s2 := parseValue_step fuel (Value.mk (data.headD 0) [] .vnil) st1; rw [h2] at s2
    cases d2 <;> simpa using Step.trans s1 s2

/-! ### The spec's scenarios B and C -/

/-- Scenario B of the spec: a 5-byte string "hello". -/
theorem scenarioB_string :
    Parse 10 (New [0x02, 0x00, 0x05, 104, 101, 108, 108, 111]) =
      (some { value := some (Value.mk 2 [] (.vstr [104, 101, 108, 108, 111])),
              bytesRead := 8, error := none },
       { input := [], references := [], bytesRead := 8 }) := rfl

/-- Scenario C of the spec: an object with one Number property named "a". -/
theorem scenarioC_object :
    Parse 10 (New [0x03, 0x00, 0x01, 97, 0x00, 63, 240, 0, 0, 0, 0, 0, 0, 0x00, 0x00, 0x09]) =
      (some { value := some (Value.mk 3 []
                (.varr [Value.mk 0 [97] (.vnum 0x3FF0000000000000)])),
              bytesRead := 16, error := none },
       { input := [],
         references := [Value.mk 3 [] (.varr [Value.mk 0 [97] (.vnum 0x3FF0000000000000)])],
         bytesRead := 16 }) := rfl

/-! ### Exact-read helper lemmas -/

theorem readBytes_exact (n : Nat) (pre r : List Nat) (refs : List Value) (br : Nat)
    (h : pre.length = n) :
    readBytes n ⟨pre ++ r, refs, br⟩ = (some pre, ⟨r, refs, br + n⟩) := by
  subst h
  unfold readBytes
  rw [if_neg (by simp only [List.length_append]; omega)]
  simp [List.take_left, List.drop_left]

theorem readBytes_two (a b : Nat) (r : List Nat) (refs : List Value) (br : Nat) :
    readBytes 2 ⟨a :: b :: r, refs, br⟩ = (some [a, b], ⟨r, refs, br + 2⟩) :=
  readBytes_exact 2 [a, b] r refs br rfl

theorem beBytes_pair (a b : Nat) : beBytes [a, b] = 256 * a + b := by
  simp [beBytes]; ring

/-- What the `case Reference` arm does on a stream holding at least the
two index bytes: the Go bound check `int(index) > len(p.references)-1`
is exactly `refs.length ≤ index` (the signed arithmetic makes the check
correct also for an empty table). -/
theorem caseReference_spec (v : Value) (a b : Nat) (r : List Nat) (refs : List Value) (br : Nat) :
    caseReference v ⟨a :: b :: r, refs, br⟩ =
      if refs.length ≤ beBytes [a, b] then
        (.err .invalidReference v, ⟨r, refs, br + 2⟩)
      else
        (.ok (Value.mk (refs.getD (beBytes [a, b]) (Value.mk 0 [] .vnil)).marker v.name
              (refs.getD (beBytes [a, b]) (Value.mk 0 [] .vnil)).payload),
         ⟨r, refs, br + 2⟩) := by
  unfold caseReference
  rw [readBytes_two]
  have hiff : ((beBytes [a, b] : Nat) : Int) > (refs.length : Int) - 1 ↔
      refs.length ≤ beBytes [a, b] := by omega
  simp only [hiff]

/-! ### Field lemmas for `Value` -/

theorem Value.withPayload_marker (v : Value) (p : Payload) : (v.withPayload p).marker = v.marker := by
  cases v; rfl

theorem Value.withPayload_name (v : Value) (p : Payload) : (v.withPayload p).name = v.name := by
  cases v; rfl

theorem Value.withPayload_payload (v : Value) (p : Payload) : (v.withPayload p).payload = p := by
  cases v; rfl

theorem Value.withName_marker (v : Value) (nb : List Nat) : (v.withName nb).marker = v.marker := by
  cases v; rfl

theorem Value.withName_payload (v : Value) (nb : List Nat) : (v.withName nb).payload = v.payload := by
  cases v; rfl

/-! ### What each arm returns on failure and on success -/

theorem register_err (value : Value) (r : LRes × PState) (e : AmfError) (pv : Value)
    (h : (register value r).1 = .err e pv) : pv = value := by
  rcases r with ⟨res, st1⟩
  cases res with
  | ok props => simp [register] at h
  | err e2 => simp [register] at h; exact h.2.symm
  | out => simp [register] at h

theorem register_ok (value : Value) (r : LRes × PState) (v' : Value)
    (h : (register value r).1 = .ok v') :
    ∃ props, r.1 = .ok props ∧ v' = value.withPayload (.varr props) := by
  rcases r with ⟨res, st1⟩
  cases res with
  | ok props => exact ⟨props, rfl, by simpa [register] using h.symm⟩
  | err e2 => simp [register] at h
  | out => simp [register] at h

theorem finishArray_err (value : Value) (r : LRes × PState) (e : AmfError) (pv : Value)
    (h : (finishArray value r).1 = .err e pv) : pv = value := by
  rcases r with ⟨res, st1⟩
  cases res with
  | ok values => simp [finishArray] at h
  | err e2 => simp [finishArray] at h; exact h.2.symm
  | out => simp [finishArray] at h

theorem finishArray_ok (value : Value) (r : LRes × PState) (v' : Value)
    (h : (finishArray value r).1 = .ok v') :
    ∃ values, r.1 = .ok values ∧ v' = value.withPayload (.varr values) := by
  rcases r with ⟨res, st1⟩
  cases res with
  | ok values => exact ⟨values, rfl, by simpa [finishArray] using h.symm⟩
  | err e2 => simp [finishArray] at h
  | out => simp [finishArray] at h

theorem caseNumber_err (v : Value) (st : PState) (e : AmfError) (pv : Value)
    (h : (caseNumber v st).1 = .err e pv) : pv = v := by
  unfold caseNumber at h
  rcases h1 : readDouble st with ⟨d1, st1⟩
  rw [h1] at h
  cases d1 <;> simp at h
  exact h.2.symm

theorem caseNumber_ok (v : Value) (st : PState) (v' : Value)
    (h : (caseNumber v st).1 = .ok v') : ∃ bits, v' = v.withPayload (.vnum bits) := by
  unfold caseNumber at h
  rcases h1 : readDouble st with ⟨d1, st1⟩
  rw [h1] at h
  cases d1 <;> simp at h
  exact ⟨_, h.symm⟩

theorem caseBoolean_err (v : Value) (st : PState) (e : AmfError) (pv : Value)
    (h : (caseBoolean v st).1 = .err e pv) : pv = v := by
  unfold caseBoolean at h
  rcases h1 : readBytes 1 st with ⟨d1, st1⟩
  rw [h1] at h
  cases d1 <;> simp at h
  exact h.2.symm

theorem caseBoolean_ok (v : Value) (st : PState) (v' : Value)
    (h : (caseBoolean v st).1 = .ok v') : ∃ bl, v' = v.withPayload (.vbool bl) := by
  unfold caseBoolean at h
  rcases h1 : readBytes 1 st with ⟨d1, st1⟩
  rw [h1] at h
  cases d1 <;> simp at h
  exact ⟨_, h.symm⟩

theorem caseString_err (v : Value) (st : PState) (e : AmfError) (pv : Value)
    (h : (caseString v st).1 = .err e pv) : pv = v := by
  unfold caseString at h
  rcases h1 : readString v.marker st with ⟨d1, st1⟩
  rw [h1] at h
  cases d1 with
  | error e2 => simp at h; exact h.2.symm
  | ok s => rcases s with ⟨s, len⟩; simp at h

theorem caseString_ok (v : Value) (st : PState) (v' : Value)
    (h : (caseString v st).1 = .ok v') : ∃ s, v' = v.withPayload (.vstr s) := by
  unfold caseString at h
  rcases h1 : readString v.marker st with ⟨d1, st1⟩
  rw [h1] at h
  cases d1 with
  | error e2 => simp at h
  | ok s => rcases s with ⟨s, len⟩; simp at h; exact ⟨s, h.symm⟩

theorem caseReference_err (v : Value) (st : PState) (e : AmfError) (pv : Value)
    (h : (caseReference v st).1 = .err e pv) : pv = v := by
  unfold caseReference at h
  rcases h1 : readBytes 2 st with ⟨d1, st1⟩
  rw [h1] at h
  cases d1 with
  | none => simp at h; exact h.2.symm
  | some data =>
    simp only at h
    split at h
    · simp at h; exact h.2.symm
    · simp at h

theorem caseReference_ok (v : Value) (st : PState) (v' : Value)
    (h : (caseReference v st).1 = .ok v') :
    ∃ ref : Value, v' = Value.mk ref.marker v.name ref.payload := by
  unfold caseReference at h
  rcases h1 : readBytes 2 st with ⟨d1, st1⟩
  rw [h1] at h
  cases d1 with
  | none => simp at h
  | some data =>
    simp only at h
    split at h
    · simp at h
    · have h2 : VRes.ok (Value.mk
          (st1.references.getD (beBytes data) (Value.mk 0 [] Payload.vnil)).marker v.name
          (st1.references.getD (beBytes data) (Value.mk 0 [] Payload.vnil)).payload) =
          VRes.ok v' := h
      injection h2 with hv
      exact ⟨st1.references.getD (beBytes data) (Value.mk 0 [] Payload.vnil), hv.symm⟩

theorem caseDate_err (v : Value) (st : PState) (e : AmfError) (pv : Value)
    (h : (caseDate v st).1 = .err e pv) : pv = v := by
  unfold caseDate at h
  rcases h1 : readBytes 2 st with ⟨d1, st1⟩
  rw [h1] at h
  cases d1 with
  | none => simp at h; exact h.2.symm
  | some data =>
    simp only at h
    rcases h2 : readBytes 8 st1 with ⟨d2, st2⟩
    rw [h2] at h
    cases d2 <;> simp at h
    exact h.2.symm

theorem caseDate_ok (v : Value) (st : PState) (v' : Value)
    (h : (caseDate v st).1 = .ok v') : ∃ bits, v' = v.withPayload (.vnum bits) := by
  unfold caseDate at h
  rcases h1 : readBytes 2 st with ⟨d1, st1⟩
  rw [h1] at h
  cases d1 with
  | none => simp at h
  | some data =>
    simp only at h
    rcases h2 : readBytes 8 st1 with ⟨d2, st2⟩
    rw [h2] at h
    cases d2 <;> simp at h
    exact ⟨_, h.symm⟩

/-- On an error, the value handed back next to the error is the value
being decoded, possibly with its `Name` already set (the `TypedObject`
arm assigns the class name before decoding the properties), but with
`Marker` and payload untouched. -/
theorem parseValue_err_partial (fuel : Nat) (v : Value) (st : PState) (e : AmfError)
    (pv : Value) (st' : PState) (h : parseValue fuel v st = (.err e pv, st')) :
    pv.marker = v.marker ∧ pv.payload = v.payload := by
  cases fuel with
  | zero => simp [parseValue] at h
  | succ f =>
    refine parseValue_succ_cases f v st
      (fun r => r = (.err e pv, st') → pv.marker = v.marker ∧ pv.payload = v.payload)
      ?_ ?_ ?_ ?_ ?_ ?_ ?_ ?_ ?_ ?_ ?_ ?_ ?_ h
    · intro _ hr
      have := caseNumber_err v st e pv (congrArg Prod.fst hr)
      subst this; exact ⟨rfl, rfl⟩
    · intro _ hr
      have := caseBoolean_err v st e pv (congrArg Prod.fst hr)
      subst this; exact ⟨rfl, rfl⟩
    · intro _ hr
      have := caseString_err v st e pv (congrArg Prod.fst hr)
      subst this; exact ⟨rfl, rfl⟩
    · intro _ hr
      have := register_err v (parseProperties f st) e pv (congrArg Prod.fst hr)
      subst this; exact ⟨rfl, rfl⟩
    · intro _ hr
      simp at hr
    · intro _ hr
      have := caseReference_err v st e pv (congrArg Prod.fst hr)
      subst this; exact ⟨rfl, rfl⟩
    · intro _ hr
      rcases h1 : readBytes 4 st with ⟨d1, st1⟩
      rw [h1] at hr
      cases d1 with
      | none =>
        have h2 : VRes.err AmfError.shortRead v = VRes.err e pv := congrArg Prod.fst hr
        injection h2 with he hv
        subst hv; exact ⟨rfl, rfl⟩
      | some data =>
        have := register_err v (parseProperties f st1) e pv (congrArg Prod.fst hr)
        subst this; exact ⟨rfl, rfl⟩
    · intro _ hr
      rcases h1 : readBytes 4 st with ⟨d1, st1⟩
      rw [h1] at hr
      cases d1 with
      | none =>
        have h2 : VRes.err AmfError.shortRead v = VRes.err e pv := congrArg Prod.fst hr
        injection h2 with he hv
        subst hv; exact ⟨rfl, rfl⟩
      | some data =>
        replace hr : (match readBytes 1 st1 with
          | (none, st2) => (VRes.err AmfError.shortRead v, st2)
          | (some data2, st2) =>
            finishArray v (parseArray f (data2.headD 0) (beBytes data) st2)) =
            (VRes.err e pv, st') := hr
        rcases h2 : readBytes 1 st1 with ⟨d2, st2⟩
        rw [h2] at hr
        cases d2 with
        | none =>
          have h3 : VRes.err AmfError.shortRead v = VRes.err e pv := congrArg Prod.fst hr
          injection h3 with he hv
          subst hv; exact ⟨rfl, rfl⟩
        | some data2 =>
          have := finishArray_err v (parseArray f (data2.headD 0) (beBytes data) st2) e pv
            (congrArg Prod.fst hr)
          subst this; exact ⟨rfl, rfl⟩
    · intro _ hr
      have := caseDate_err v st e pv (congrArg Prod.fst hr)
      subst this; exact ⟨rfl, rfl⟩
    · intro _ hr
      rcases h1 : readString Amf0.String st with ⟨d1, st1⟩
      rw [h1] at hr
      cases d1 with
      | error e2 =>
        have h2 : VRes.err e2 v = VRes.err e pv := congrArg Prod.fst hr
        injection h2 with he hv
        subst hv; exact ⟨rfl, rfl⟩
      | ok nb =>
        rcases nb with ⟨nameBytes, len⟩
        have := register_err (v.withName nameBytes) (parseProperties f st1) e pv
          (congrArg Prod.fst hr)
        subst this
        exact ⟨Value.withName_marker v nameBytes, Value.withName_payload v nameBytes⟩
    · intro _ hr
      have h2 : VRes.err AmfError.unsupportedVersion v = VRes.err e pv := congrArg Prod.fst hr
      injection h2 with he hv
      subst hv; exact ⟨rfl, rfl⟩
    · intro _ hr
      have h2 : VRes.err (AmfError.unsupportedType v.marker) v = VRes.err e pv :=
        congrArg Prod.fst hr
      injection h2 with he hv
      subst hv; exact ⟨rfl, rfl⟩
    · intro _ _ _ _ _ _ _ _ _ _ _ _ hr
      simp at hr

/-- A successfully decoded value keeps the marker it was created with,
except when that marker is the backreference tag. -/
theorem parseValue_ok_marker (fuel : Nat) (v : Value) (st : PState) (v' : Value)
    (st' : PState) (h : parseValue fuel v st = (.ok v', st'))
    (hm : v.marker ≠ Amf0.Reference) : v'.marker = v.marker := by
  cases fuel with
  | zero => simp [parseValue] at h
  | succ f =>
    refine parseValue_succ_cases f v st
      (fun r => r = (.ok v', st') → v'.marker = v.marker) ?_ ?_ ?_ ?_ ?_ ?_ ?_ ?_ ?_ ?_ ?_ ?_ ?_ h
    · intro _ hr
      obtain ⟨bits, hb⟩ := caseNumber_ok v st v' (congrArg Prod.fst hr)
      rw [hb, Value.withPayload_marker]
    · intro _ hr
      obtain ⟨bl, hb⟩ := caseBoolean_ok v st v' (congrArg Prod.fst hr)
      rw [hb, Value.withPayload_marker]
    · intro _ hr
      obtain ⟨s, hb⟩ := caseString_ok v st v' (congrArg Prod.fst hr)
      rw [hb, Value.withPayload_marker]
    · intro _ hr
      obtain ⟨props, _, hb⟩ := register_ok v (parseProperties f st) v' (congrArg Prod.fst hr)
      rw [hb, Value.withPayload_marker]
    · intro _ hr
      have h2 : VRes.ok (v.withPayload Payload.vnil) = VRes.ok v' := congrArg Prod.fst hr
      injection h2 with hv
      rw [← hv, Value.withPayload_marker]
    · intro hc
      exact absurd hc hm
    · intro _ hr
      rcases h1 : readBytes 4 st with ⟨d1, st1⟩
      rw [h1] at hr
      cases d1 with
      | none =>
        have h2 : VRes.err AmfError.shortRead v = VRes.ok v' := congrArg Prod.fst hr
        exact absurd h2 (by simp)
      | some data =>
        obtain ⟨props, _, hb⟩ := register_ok v (parseProperties f st1) v' (congrArg Prod.fst hr)
        rw [hb, Value.withPayload_marker]
    · intro _ hr
      rcases h1 : readBytes 4 st with ⟨d1, st1⟩
      rw [h1] at hr
      cases d1 with
      | none =>
        have h2 : VRes.err AmfError.shortRead v = VRes.ok v' := congrArg Prod.fst hr
        exact absurd h2 (by simp)
      | some data =>
        replace hr : (match readBytes 1 st1 with
          | (none, st2) => (VRes.err AmfError.shortRead v, st2)
          | (some data2, st2) =>
            finishArray v (parseArray f (data2.headD 0) (beBytes data) st2)) =
            (VRes.ok v', st') := hr
        rcases h2 : readBytes 1 st1 with ⟨d2, st2⟩
        rw [h2] at hr
        cases d2 with
        | none =>
          have h3 : VRes.err AmfError.shortRead v = VRes.ok v' := congrArg Prod.fst hr
          exact absurd h3 (by simp)
        | some data2 =>
          obtain ⟨values, _, hb⟩ :=
            finishArray_ok v (parseArray f (data2.headD 0) (beBytes data) st2) v'
              (congrArg Prod.fst hr)
          rw [hb, Value.withPayload_marker]
    · intro _ hr
      obtain ⟨bits, hb⟩ := caseDate_ok v st v' (congrArg Prod.fst hr)
      rw [hb, Value.withPayload_marker]
    · intro _ hr
      rcases h1 : readString Amf0.String st with ⟨d1, st1⟩
      rw [h1] at hr
      cases d1 with
      | error e2 =>
        have h2 : VRes.err e2 v = VRes.ok v' := congrArg Prod.fst hr
        exact absurd h2 (by simp)
      | ok nb =>
        rcases nb with ⟨nameBytes, len⟩
        obtain ⟨props, _, hb⟩ :=
          register_ok (v.withName nameBytes) (parseProperties f st1) v'
            (congrArg Prod.fst hr)
        rw [hb, Value.withPayload_marker, Value.withName_marker]
    · intro _ hr
      simp at hr
    · intro _ hr
      simp at hr
    · intro _ _ _ _ _ _ _ _ _ _ _ _ hr
      have h2 : VRes.ok v = VRes.ok v' := congrArg Prod.fst hr
      injection h2 with hv
      rw [← hv]

/-! ### More exact-read helpers -/

theorem readBytes_one (a : Nat) (r : List Nat) (refs : List Value) (br : Nat) :
    readBytes 1 ⟨a :: r, refs, br⟩ = (some [a], ⟨r, refs, br + 1⟩) :=
  readBytes_exact 1 [a] r refs br rfl

theorem readBytes_four (b0 b1 b2 b3 : Nat) (r : List Nat) (refs : List Value) (br : Nat) :
    readBytes 4 ⟨b0 :: b1 :: b2 :: b3 :: r, refs, br⟩ =
      (some [b0, b1, b2, b3], ⟨r, refs, br + 4⟩) :=
  readBytes_exact 4 [b0, b1, b2, b3] r refs br rfl

/-! ### Success of the StrictArray element loop -/

/-- A successful StrictArray element loop returns exactly `n` elements,
and each of them keeps the one declared tag byte unless that byte is the
backreference tag (whose arm overwrites the marker with the referent's). -/
theorem parseArray_ok :
    ∀ (fuel m n : Nat) (st : PState) (l : List Value) (st' : PState),
      parseArray fuel m n st = (.ok l, st') →
      l.length = n ∧ (m ≠ Amf0.Reference → ∀ v ∈ l, v.marker = m) := by
  intro fuel
  induction fuel with
  | zero => intro m n st l st' h; simp [parseArray] at h
  | succ f ih =>
    intro m n st l st' h
    cases n with
    | zero =>
      have h2 : LRes.ok ([] : List Value) = LRes.ok l := congrArg Prod.fst h
      injection h2 with hl
      subst hl
      exact ⟨rfl, fun _ v hv => absurd hv (List.not_mem_nil v)⟩
    | succ k =>
      rw [parseArray] at h
      rcases h1 : parseValue f (Value.mk m [] .vnil) st with ⟨d1, st1⟩
      rw [h1] at h
      cases d1 with
      | err e pv => exact absurd (congrArg Prod.fst h) (by simp)
      | out => exact absurd (congrArg Prod.fst h) (by simp)
      | ok v =>
        replace h : consRes v (parseArray f m k st1) = (LRes.ok l, st') := h
        rcases h2 : parseArray f m k st1 with ⟨d2, st2⟩
        rw [h2] at h
        cases d2 with
        | err e2 => simp [consRes] at h
        | out => simp [consRes] at h
        | ok rest =>
          have h3 : LRes.ok (v :: rest) = LRes.ok l := congrArg Prod.fst h
          injection h3 with hl
          obtain ⟨hlen, hmk⟩ := ih m k st1 rest st2 h2
          subst hl
          refine ⟨by simp [hlen], fun hm v2 hv2 => ?_⟩
          rcases List.mem_cons.mp hv2 with h4 | h4
          · subst h4
            exact parseValue_ok_marker f (Value.mk m [] .vnil) st v2 st1 h1 hm
          · exact hmk hm v2 h4

/-! ### Dispatch shapes for the StrictArray and Object arms -/

/-- Decoding a StrictArray whose stream starts with the four count bytes
and the one element tag byte is the element loop followed by storage of
the sequence. -/
theorem strict_spec (f : Nat) (v : Value) (b0 b1 b2 b3 t : Nat) (rest : List Nat)
    (refs : List Value) (br : Nat) (hv : v.marker = Amf0.StrictArray) :
    parseValue (f + 1) v ⟨b0 :: b1 :: b2 :: b3 :: t :: rest, refs, br⟩ =
      finishArray v (parseArray f t (beBytes [b0, b1, b2, b3]) ⟨rest, refs, br + 5⟩) := by
  refine parseValue_succ_cases f v ⟨b0 :: b1 :: b2 :: b3 :: t :: rest, refs, br⟩
    (fun r => r = finishArray v (parseArray f t (beBytes [b0, b1, b2, b3]) ⟨rest, refs, br + 5⟩))
    ?_ ?_ ?_ ?_ ?_ ?_ ?_ ?_ ?_ ?_ ?_ ?_ ?_
  · intro hc; rw [hv] at hc; exact absurd hc (by decide)
  · intro hc; rw [hv] at hc; exact absurd hc (by decide)
  · intro hc; rw [hv] at hc; exact absurd hc (by decide)
  · intro hc; rw [hv] at hc; exact absurd hc (by decide)
  · intro hc; rw [hv] at hc; exact absurd hc (by decide)
  · intro hc; rw [hv] at hc; exact absurd hc (by decide)
  · intro hc; rw [hv] at hc; exact absurd hc (by decide)
  · intro _
    rw [readBytes_four]
    have h45 : br + 4 + 1 = br + 5 := by omega
    exact (by rw [readBytes_one, h45]; rfl :
      (match readBytes 1 (⟨t :: rest, refs, br + 4⟩ : PState) with
        | (none, st2) => (VRes.err AmfError.shortRead v, st2)
        | (some data2, st2) =>
          finishArray v (parseArray f (data2.headD 0) (beBytes [b0, b1, b2, b3]) st2)) =
        finishArray v (parseArray f t (beBytes [b0, b1, b2, b3]) ⟨rest, refs, br + 5⟩))
  · intro hc; rw [hv] at hc; exact absurd hc (by decide)
  · intro hc; rw [hv] at hc; exact absurd hc (by decide)
  · intro hc; rw [hv] at hc; exact absurd hc (by decide)
  · intro hc; rw [hv] at hc; exact absurd hc (by decide)
  · intro _ _ _ _ _ _ _ hc _ _ _ _
    exact absurd hv hc

/-- Decoding with the Object tag is the property-list decode followed by
`register`: the finished value is appended to the table only after its
entire property list has been decoded. -/
theorem object_spec (f : Nat) (v : Value) (st : PState) (hv : v.marker = Amf0.Object) :
    parseValue (f + 1) v st = register v (parseProperties f st) := by
  refine parseValue_succ_cases f v st (fun r => r = register v (parseProperties f st))
    ?_ ?_ ?_ ?_ ?_ ?_ ?_ ?_ ?_ ?_ ?_ ?_ ?_
  · intro hc; rw [hv] at hc; exact absurd hc (by decide)
  · intro hc; rw [hv] at hc; exact absurd hc (by decide)
  · intro hc; rw [hv] at hc; exact absurd hc (by decide)
  · intro _; exact rfl
  · intro hc; rw [hv] at hc; exact absurd hc (by decide)
  · intro hc; rw [hv] at hc; exact absurd hc (by decide)
  · intro hc; rw [hv] at hc; exact absurd hc (by decide)
  · intro hc; rw [hv] at hc; exact absurd hc (by decide)
  · intro hc; rw [hv] at hc; exact absurd hc (by decide)
  · intro hc; rw [hv] at hc; exact absurd hc (by decide)
  · intro hc; rw [hv] at hc; exact absurd hc (by decide)
  · intro hc; rw [hv] at hc; exact absurd hc (by decide)
  · intro _ _ _ hc _ _ _ _ _ _ _ _
    exact absurd hv hc

/-- Decoding with the ECMAArray tag discards the 4-byte count, decodes
the property list and then registers the finished value. -/
theorem ecma_spec (f : Nat) (v : Value) (st : PState) (hv : v.marker = Amf0.ECMAArray) :
    parseValue (f + 1) v st =
      match readBytes 4 st with
      | (none, st1) => (.err .shortRead v, st1)
      | (some _, st1) => register v (parseProperties f st1) := by
  refine parseValue_succ_cases f v st
    (fun r => r = match readBytes 4 st with
      | (none, st1) => (.err .shortRead v, st1)
      | (some _, st1) => register v (parseProperties f st1))
    ?_ ?_ ?_ ?_ ?_ ?_ ?_ ?_ ?_ ?_ ?_ ?_ ?_
  · intro hc; rw [hv] at hc; exact absurd hc (by decide)
  · intro hc; rw [hv] at hc; exact absurd hc (by decide)
  · intro hc; rw [hv] at hc; exact absurd hc (by decide)
  · intro hc; rw [hv] at hc; exact absurd hc (by decide)
  · intro hc; rw [hv] at hc; exact absurd hc (by decide)
  · intro hc; rw [hv] at hc; exact absurd hc (by decide)
  · intro _; exact rfl
  · intro hc; rw [hv] at hc; exact absurd hc (by decide)
  · intro hc; rw [hv] at hc; exact absurd hc (by decide)
  · intro hc; rw [hv] at hc; exact absurd hc (by decide)
  · intro hc; rw [hv] at hc; exact absurd hc (by decide)
  · intro hc; rw [hv] at hc; exact absurd hc (by decide)
  · intro _ _ _ _ _ _ hc _ _ _ _ _
    exact absurd hv hc

/-- Decoding with the TypedObject tag reads the class name, decodes the
property list and then registers the finished value. -/
theorem typed_spec (f : Nat) (v : Value) (st : PState) (hv : v.marker = Amf0.TypedObject) :
    parseValue (f + 1) v st =
      match readString Amf0.String st with
      | (.error e, st1) => (.err e v, st1)
      | (.ok (nameBytes, _), st1) =>
        register (v.withName nameBytes) (parseProperties f st1) := by
  refine parseValue_succ_cases f v st
    (fun r => r = match readString Amf0.String st with
      | (.error e, st1) => (.err e v, st1)
      | (.ok (nameBytes, _), st1) =>
        register (v.withName nameBytes) (parseProperties f st1))
    ?_ ?_ ?_ ?_ ?_ ?_ ?_ ?_ ?_ ?_ ?_ ?_ ?_
  · intro hc; rw [hv] at hc; exact absurd hc (by decide)
  · intro hc; rw [hv] at hc; exact absurd hc (by decide)
  · intro hc; rw [hv] at hc; exact absurd hc (by decide)
  · intro hc; rw [hv] at hc; exact absurd hc (by decide)
  · intro hc; rw [hv] at hc; exact absurd hc (by decide)
  · intro hc; rw [hv] at hc; exact absurd hc (by decide)
  · intro hc; rw [hv] at hc; exact absurd hc (by decide)
  · intro hc; rw [hv] at hc; exact absurd hc (by decide)
  · intro hc; rw [hv] at hc; exact absurd hc (by decide)
  · intro _; exact rfl
  · intro hc; rw [hv] at hc; exact absurd hc (by decide)
  · intro hc; rw [hv] at hc; exact absurd hc (by decide)
  · intro _ _ _ _ _ _ _ _ _ hc _ _
    exact absurd hv hc

theorem cleanL_append (l1 l2 : List Value) : cleanL (l1 ++ l2) = (cleanL l1 && cleanL l2) := by
  induction l1 with
  | nil => simp [cleanL]
  | cons v t ih => simp [cleanL, ih, Bool.and_assoc]

theorem cleanL_mem (l : List Value) (hc : cleanL l = true) (v : Value) (hv : v ∈ l) :
    cleanV v = true := by
  induction l with
  | nil => cases hv
  | cons w t ih =>
    rw [show cleanL (w :: t) = (cleanV w && cleanL t) from rfl, Bool.and_eq_true] at hc
    rcases List.mem_cons.mp hv with h | h
    · rw [h]; exact hc.1
    · exact ih hc.2 h

theorem cleanV_mk (m : Nat) (nm : List Nat) (p : Payload) :
    cleanV (Value.mk m nm p) = ((m != Amf0.Reference) && cleanP p) := rfl

theorem cleanV_withPayload (v : Value) (p : Payload) :
    cleanV (v.withPayload p) = ((v.marker != Amf0.Reference) && cleanP p) := by
  cases v; rfl

theorem cleanV_fields (v : Value) (h : cleanV v = true) :
    v.marker ≠ Amf0.Reference ∧ cleanP v.payload = true := by
  cases v with
  | mk m nm p => simpa [cleanV, Bool.and_eq_true, bne_iff_ne] using h

/-! ### The reference table is untouched by the plain read arms -/

theorem readDouble_refs (st : PState) : ((readDouble st).2).references = st.references := by
  unfold readDouble
  rcases h1 : readBytes 8 st with ⟨d1, st1⟩
  have r1 := readBytes_refs 8 st; rw [h1] at r1
  cases d1 <;> simpa using r1

theorem readString_refs (marker : Nat) (st : PState) :
    ((readString marker st).2).references = st.references := by
  unfold readString
  split
  · rcases h1 : readBytes 2 st with ⟨d1, st1⟩
    have r1 := readBytes_refs 2 st; rw [h1] at r1
    cases d1 with
    | none => simpa using r1
    | some data =>
      simp only
      rcases h2 : readBytes (beBytes data) st1 with ⟨d2, st2⟩
      have r2 := readBytes_refs (beBytes data) st1; rw [h2] at r2
      cases d2 <;> simpa using r2.trans r1
  split
  · rcases h1 : readBytes 4 st with ⟨d1, st1⟩
    have r1 := readBytes_refs 4 st; rw [h1] at r1
    cases d1 with
    | none => simpa using r1
    | some data =>
      simp only
      split
      · simpa using r1
      · rcases h2 : readBytes (toInt32 (beBytes data)).toNat st1 with ⟨d2, st2⟩
        have r2 := readBytes_refs (toInt32 (beBytes data)).toNat st1; rw [h2] at r2
        cases d2 <;> simpa using r2.trans r1
  · rcases h1 : readBytes 0 st with ⟨d1, st1⟩
    have r1 := readBytes_refs 0 st; rw [h1] at r1
    cases d1 <;> simpa using r1

theorem caseNumber_refs (v : Value) (st : PState) :
    ((caseNumber v st).2).references = st.references := by
  unfold caseNumber
  rcases h1 : readDouble st with ⟨d1, st1⟩
  have r1 := readDouble_refs st; rw [h1] at r1
  cases d1 <;> simpa using r1

theorem caseBoolean_refs (v : Value) (st : PState) :
    ((caseBoolean v st).2).references = st.references := by
  unfold caseBoolean
  rcases h1 : readBytes 1 st with ⟨d1, st1⟩
  have r1 := readBytes_refs 1 st; rw [h1] at r1
  cases d1 <;> simpa using r1

theorem caseString_refs (v : Value) (st : PState) :
    ((caseString v st).2).references = st.references := by
  unfold caseString
  rcases h1 : readString v.marker st with ⟨d1, st1⟩
  have r1 := readString_refs v.marker st; rw [h1] at r1
  cases d1 with
  | error e => simpa using r1
  | ok s => rcases s with ⟨s, len⟩; simpa using r1

theorem caseReference_refs (v : Value) (st : PState) :
    ((caseReference v st).2).references = st.references := by
  unfold caseReference
  rcases h1 : readBytes 2 st with ⟨d1, st1⟩
  have r1 := readBytes_refs 2 st; rw [h1] at r1
  cases d1 with
  | none => simpa using r1
  | some data => simp only; split <;> simpa using r1

theorem caseDate_refs (v : Value) (st : PState) :
    ((caseDate v st).2).references = st.references := by
  unfold caseDate
  rcases h1 : readBytes 2 st with ⟨d1, st1⟩
  have r1 := readBytes_refs 2 st; rw [h1] at r1
  cases d1 with
  | none => simpa using r1
  | some data =>
    simp only
    rcases h2 : readBytes 8 st1 with ⟨d2, st2⟩
    have r2 := readBytes_refs 8 st1; rw [h2] at r2
    cases d2 <;> simpa using r2.trans r1

/-! ### Cleanliness of the individual arms -/

theorem checkEnd_ok (r : Option (List Nat) × PState) (l : List Value)
    (h : (checkEnd r).1 = LRes.ok l) : l = [] := by
  rcases r with ⟨d, st2⟩
  cases d with
  | none => simp [checkEnd] at h
  | some data =>
    simp only [checkEnd] at h
    split at h
    · injection h with hl; exact hl.symm
    · simp at h

theorem register_clean (value : Value) (r : LRes × PState)
    (hm : value.marker ≠ Amf0.Reference)
    (hs : cleanL r.2.references = true)
    (hl : ∀ l, r.1 = LRes.ok l → cleanL l = true) :
    cleanL ((register value r).2).references = true ∧
    ∀ v', (register value r).1 = VRes.ok v' → cleanV v' = true := by
  rcases r with ⟨res, st1⟩
  cases res with
  | err e => exact ⟨hs, fun v' h' => by simp [register] at h'⟩
  | out => exact ⟨hs, fun v' h' => by simp [register] at h'⟩
  | ok props =>
    have hprops := hl props rfl
    have hcv : cleanV (value.withPayload (.varr props)) = true := by
      rw [cleanV_withPayload]
      simp only [Bool.and_eq_true, bne_iff_ne]
      exact ⟨hm, by simpa [cleanP] using hprops⟩
    constructor
    · show cleanL (st1.references ++ [value.withPayload (.varr props)]) = true
      rw [cleanL_append]
      simp only [Bool.and_eq_true]
      exact ⟨hs, by simp [cleanL, hcv]⟩
    · intro v' h'
      have h2 : VRes.ok (value.withPayload (.varr props)) = VRes.ok v' := h'
      injection h2 with hv
      rw [← hv]; exact hcv

theorem caseReference_clean (v : Value) (st : PState) (hc : cleanL st.references = true) :
    cleanL ((caseReference v st).2).references = true ∧
    ∀ v', (caseReference v st).1 = VRes.ok v' → cleanV v' = true := by
  unfold caseReference
  rcases h1 : readBytes 2 st with ⟨d1, st1⟩
  have r1 := readBytes_refs 2 st; rw [h1] at r1
  have hc1 : cleanL st1.references = true := by rw [r1]; exact hc
  cases d1 with
  | none => exact ⟨hc1, fun v' h' => by simp at h'⟩
  | some data =>
    simp only
    split
    · exact ⟨hc1, fun v' h' => by simp at h'⟩
    · next hcond =>
      refine ⟨hc1, fun v' h' => ?_⟩
      have h2 : VRes.ok (Value.mk
          (st1.references.getD (beBytes data) (Value.mk 0 [] Payload.vnil)).marker v.name
          (st1.references.getD (beBytes data) (Value.mk 0 [] Payload.vnil)).payload) =
          VRes.ok v' := h'
      injection h2 with hv
      have hlt : beBytes data < st1.references.length := by omega
      have hmem : st1.references.getD (beBytes data) (Value.mk 0 [] Payload.vnil) ∈
          st1.references := by
        rw [List.getD_eq_getElem st1.references (Value.mk 0 [] Payload.vnil) hlt]
        exact List.getElem_mem hlt
      have hf := cleanV_fields _ (cleanL_mem st1.references hc1 _ hmem)
      rw [← hv, cleanV_mk]
      simp only [Bool.and_eq_true, bne_iff_ne]
      exact hf

theorem cleanV_eq (v : Value) :
    cleanV v = ((v.marker != Amf0.Reference) && cleanP v.payload) := by
  cases v; rfl

theorem clean_withPayload_simple (v : Value) (p : Payload) (hm : v.marker ≠ Amf0.Reference)
    (hp : cleanP p = true) : cleanV (v.withPayload p) = true := by
  rw [cleanV_withPayload]
  simp only [Bool.and_eq_true, bne_iff_ne]
  exact ⟨hm, hp⟩

theorem finishArray_clean (value : Value) (r : LRes × PState)
    (hm : value.marker ≠ Amf0.Reference)
    (hs : cleanL r.2.references = true)
    (hl : ∀ l, r.1 = LRes.ok l → cleanL l = true) :
    cleanL ((finishArray value r).2).references = true ∧
    ∀ v', (finishArray value r).1 = VRes.ok v' → cleanV v' = true := by
  rcases r with ⟨res, st1⟩
  cases res with
  | err e => exact ⟨hs, fun v' h' => by simp [finishArray] at h'⟩
  | out => exact ⟨hs, fun v' h' => by simp [finishArray] at h'⟩
  | ok values =>
    refine ⟨hs, fun v' h' => ?_⟩
    have h2 : VRes.ok (value.withPayload (.varr values)) = VRes.ok v' := h'
    injection h2 with hv
    rw [← hv]
    exact clean_withPayload_simple value _ hm (by simpa [cleanP] using hl values rfl)

/-- The decoder invariant behind the "no backreference tag in the final
tree" property: starting from a table of clean trees, every decode step
keeps the table clean and only ever produces clean trees. -/
theorem parse_clean :
    ∀ fuel : Nat,
      (∀ v st, cleanL st.references = true → cleanP v.payload = true →
        CleanVRes (parseValue fuel v st)) ∧
      (∀ st, cleanL st.references = true → CleanLRes (parseProperties fuel st)) ∧
      (∀ m n st, cleanL st.references = true → CleanLRes (parseArray fuel m n st)) := by
  intro fuel
  induction fuel with
  | zero =>
    refine ⟨fun v st hc hp => ⟨hc, fun v' h' => ?_⟩,
            fun st hc => ⟨hc, fun l h' => ?_⟩,
            fun m n st hc => ⟨hc, fun l h' => ?_⟩⟩
    · exact VRes.noConfusion (h' : VRes.out = VRes.ok v')
    · exact LRes.noConfusion (h' : LRes.out = LRes.ok l)
    · exact LRes.noConfusion (h' : LRes.out = LRes.ok l)
  | succ f ih =>
    obtain ⟨ihv, ihp, iha⟩ := ih
    refine ⟨fun v st hc hp => ?_, fun st hc => ?_, fun m n st hc => ?_⟩
    · refine parseValue_succ_cases f v st CleanVRes ?_ ?_ ?_ ?_ ?_ ?_ ?_ ?_ ?_ ?_ ?_ ?_ ?_
      · intro hm
        refine ⟨by rw [caseNumber_refs]; exact hc, fun v' hok => ?_⟩
        obtain ⟨bits, hb⟩ := caseNumber_ok v st v' hok
        rw [hb]
        exact clean_withPayload_simple v _ (by rw [hm]; decide) rfl
      · intro hm
        refine ⟨by rw [caseBoolean_refs]; exact hc, fun v' hok => ?_⟩
        obtain ⟨bl, hb⟩ := caseBoolean_ok v st v' hok
        rw [hb]
        exact clean_withPayload_simple v _ (by rw [hm]; decide) rfl
      · intro hm
        refine ⟨by rw [caseString_refs]; exact hc, fun v' hok => ?_⟩
        obtain ⟨s, hb⟩ := caseString_ok v st v' hok
        rw [hb]
        refine clean_withPayload_simple v _ ?_ rfl
        rcases hm with h | h | h <;> rw [h] <;> decide
      · intro hm
        exact register_clean v (parseProperties f st) (by rw [hm]; decide)
          (ihp st hc).1 (ihp st hc).2
      · intro hm
        refine ⟨hc, fun v' hok => ?_⟩
        have h2 : VRes.ok (v.withPayload Payload.vnil) = VRes.ok v' := hok
        injection h2 with hv
        rw [← hv]
        refine clean_withPayload_simple v _ ?_ rfl
        rcases hm with h | h <;> rw [h] <;> decide
      · intro _
        exact caseReference_clean v st hc
      · intro hm
        rcases h1 : readBytes 4 st with ⟨d1, st1⟩
        have r1 := readBytes_refs 4 st; rw [h1] at r1
        cases d1 with
        | none =>
          refine ⟨?_, fun v' hok => ?_⟩
          · show cleanL st1.references = true
            rw [r1]; exact hc
          · exact VRes.noConfusion (hok : VRes.err AmfError.shortRead v = VRes.ok v')
        | some data =>
          show CleanVRes (register v (parseProperties f st1))
          have hc1 : cleanL st1.references = true := by rw [r1]; exact hc
          exact register_clean v (parseProperties f st1) (by rw [hm]; decide)
            (ihp st1 hc1).1 (ihp st1 hc1).2
      · intro hm
        rcases h1 : readBytes 4 st with ⟨d1, st1⟩
        have r1 := readBytes_refs 4 st; rw [h1] at r1
        cases d1 with
        | none =>
          refine ⟨?_, fun v' hok => ?_⟩
          · show cleanL st1.references = true
            rw [r1]; exact hc
          · exact VRes.noConfusion (hok : VRes.err AmfError.shortRead v = VRes.ok v')
        | some data =>
          show CleanVRes (match readBytes 1 st1 with
            | (none, st2) => (VRes.err AmfError.shortRead v, st2)
            | (some data2, st2) =>
              finishArray v (parseArray f (data2.headD 0) (beBytes data) st2))
          rcases h2 : readBytes 1 st1 with ⟨d2, st2⟩
          have r2 := readBytes_refs 1 st1; rw [h2] at r2
          cases d2 with
          | none =>
            refine ⟨?_, fun v' hok => ?_⟩
            · show cleanL st2.references = true
              rw [r2, r1]; exact hc
            · exact VRes.noConfusion (hok : VRes.err AmfError.shortRead v = VRes.ok v')
          | some data2 =>
            show CleanVRes (finishArray v (parseArray f (data2.headD 0) (beBytes data) st2))
            have hc2 : cleanL st2.references = true := by rw [r2, r1]; exact hc
            exact finishArray_clean v (parseArray f (data2.headD 0) (beBytes data) st2)
              (by rw [hm]; decide)
              (iha (data2.headD 0) (beBytes data) st2 hc2).1
              (iha (data2.headD 0) (beBytes data) st2 hc2).2
      · intro hm
        refine ⟨by rw [caseDate_refs]; exact hc, fun v' hok => ?_⟩
        obtain ⟨bits, hb⟩ := caseDate_ok v st v' hok
        rw [hb]
        exact clean_withPayload_simple v _ (by rw [hm]; decide) rfl
      · intro hm
        rcases h1 : readString Amf0.String st with ⟨d1, st1⟩
        have r1 := readString_refs Amf0.String st; rw [h1] at r1
        cases d1 with
        | error e =>
          refine ⟨?_, fun v' hok => ?_⟩
          · show cleanL st1.references = true
            rw [r1]; exact hc
          · exact VRes.noConfusion (hok : VRes.err e v = VRes.ok v')
        | ok nb =>
          rcases nb with ⟨nameBytes, len⟩
          show CleanVRes (register (v.withName nameBytes) (parseProperties f st1))
          have hc1 : cleanL st1.references = true := by rw [r1]; exact hc
          exact register_clean (v.withName nameBytes) (parseProperties f st1)
            (by rw [Value.withName_marker, hm]; decide)
            (ihp st1 hc1).1 (ihp st1 hc1).2
      · intro hm
        exact ⟨hc, fun v' hok =>
          VRes.noConfusion (hok : VRes.err AmfError.unsupportedVersion v = VRes.ok v')⟩
      · intro hm
        exact ⟨hc, fun v' hok =>
          VRes.noConfusion (hok : VRes.err (AmfError.unsupportedType v.marker) v = VRes.ok v')⟩
      · intro n0 n1 n2 n3 n4 n5 n6 n7 n8 n9 n10 n11
        refine ⟨hc, fun v' hok => ?_⟩
        have h2 : VRes.ok v = VRes.ok v' := hok
        injection h2 with hv
        rw [← hv, cleanV_eq]
        simp only [Bool.and_eq_true, bne_iff_ne]
        exact ⟨n5, hp⟩
    · rw [parseProperties]
      rcases h1 : readString Amf0.String st with ⟨d1, st1⟩
      have r1 := readString_refs Amf0.String st; rw [h1] at r1
      cases d1 with
      | error e =>
        refine ⟨?_, fun l h' => ?_⟩
        · show cleanL st1.references = true
          rw [r1]; exact hc
        · exact LRes.noConfusion (h' : LRes.err e = LRes.ok l)
      | ok nb =>
        rcases nb with ⟨name, nameLength⟩
        show CleanLRes (if nameLength = 0 then checkEnd (readBytes 1 st1) else
          match readBytes 1 st1 with
          | (none, st2) => (LRes.err AmfError.shortRead, st2)
          | (some data, st2) =>
            match parseValue f (Value.mk (data.headD 0) name .vnil) st2 with
            | (.err e _, st3) => (.err e, st3)
            | (.out, st3) => (.out, st3)
            | (.ok pv, st3) => consRes pv (parseProperties f st3))
        split
        · refine ⟨?_, fun l h' => ?_⟩
          · rw [checkEnd_state, readBytes_refs 1 st1, r1]
            exact hc
          · rw [checkEnd_ok (readBytes 1 st1) l h']
            rfl
        · rcases h2 : readBytes 1 st1 with ⟨d2, st2⟩
          have r2 := readBytes_refs 1 st1; rw [h2] at r2
          cases d2 with
          | none =>
            refine ⟨?_, fun l h' => ?_⟩
            · show cleanL st2.references = true
              rw [r2, r1]; exact hc
            · exact LRes.noConfusion (h' : LRes.err AmfError.shortRead = LRes.ok l)
          | some data =>
            show CleanLRes (match parseValue f (Value.mk (data.headD 0) name .vnil) st2 with
              | (.err e _, st3) => (LRes.err e, st3)
              | (.out, st3) => (.out, st3)
              | (.ok pv, st3) => consRes pv (parseProperties f st3))
            have hc2 : cleanL st2.references = true := by rw [r2, r1]; exact hc
            rcases h3 : parseValue f (Value.mk (data.headD 0) name .vnil) st2 with ⟨d3, st3⟩
            have ih3 := ihv (Value.mk (data.headD 0) name .vnil) st2 hc2 rfl
            rw [h3] at ih3
            cases d3 with
            | err e pv =>
              exact ⟨ih3.1, fun l h' => LRes.noConfusion (h' : LRes.err e = LRes.ok l)⟩
            | out =>
              exact ⟨ih3.1, fun l h' => LRes.noConfusion (h' : LRes.out = LRes.ok l)⟩
            | ok pv =>
              have hpv := ih3.2 pv rfl
              show CleanLRes (consRes pv (parseProperties f st3))
              rcases h4 : parseProperties f st3 with ⟨d4, st4⟩
              have ih4 := ihp st3 ih3.1
              rw [h4] at ih4
              cases d4 with
              | err e => exact ⟨ih4.1, fun l h' => by simp [consRes] at h'⟩
              | out => exact ⟨ih4.1, fun l h' => by simp [consRes] at h'⟩
              | ok rest =>
                refine ⟨ih4.1, fun l h' => ?_⟩
                have h5 : LRes.ok (pv :: rest) = LRes.ok l := h'
                injection h5 with hl
                rw [← hl, show cleanL (pv :: rest) = (cleanV pv && cleanL rest) from rfl,
                  Bool.and_eq_true]
                exact ⟨hpv, ih4.2 rest rfl⟩
    · cases n with
      | zero =>
        refine ⟨hc, fun l h' => ?_⟩
        have h2 : LRes.ok ([] : List Value) = LRes.ok l := h'
        injection h2 with hl
        rw [← hl]
        exact rfl
      | succ k =>
        rw [parseArray]
        rcases h1 : parseValue f (Value.mk m [] .vnil) st with ⟨d1, st1⟩
        have ih1 := ihv (Value.mk m [] .vnil) st hc rfl
        rw [h1] at ih1
        cases d1 with
        | err e pv =>
          exact ⟨ih1.1, fun l h' => LRes.noConfusion (h' : LRes.err e = LRes.ok l)⟩
        | out =>
          exact ⟨ih1.1, fun l h' => LRes.noConfusion (h' : LRes.out = LRes.ok l)⟩
        | ok v1 =>
          have hv1 := ih1.2 v1 rfl
          show CleanLRes (consRes v1 (parseArray f m k st1))
          rcases h2 : parseArray f m k st1 with ⟨d2, st2⟩
          have ih2 := iha m k st1 ih1.1
          rw [h2] at ih2
          cases d2 with
          | err e => exact ⟨ih2.1, fun l h' => by simp [consRes] at h'⟩
          | out => exact ⟨ih2.1, fun l h' => by simp [consRes] at h'⟩
          | ok rest =>
            refine ⟨ih2.1, fun l h' => ?_⟩
            have h5 : LRes.ok (v1 :: rest) = LRes.ok l := h'
            injection h5 with hl
            rw [← hl, show cleanL (v1 :: rest) = (cleanV v1 && cleanL rest) from rfl,
              Bool.and_eq_true]
            exact ⟨hv1, ih2.2 rest rfl⟩

/-- Function `Parse` keeps the table clean and, on success, returns a clean tree. -/
theorem Parse_clean (fuel : Nat) (st : PState) (g : GoReturn) (st' : PState)
    (h : Parse fuel st = (some g, st')) (hc : cleanL st.references = true) :
    cleanL st'.references = true ∧
    ∀ v, g.error = none → g.value = some v → cleanV v = true := by
  unfold Parse at h
  rcases h1 : readBytes 1 st with ⟨d1, st1⟩
  rw [h1] at h
  have r1 := readBytes_refs 1 st; rw [h1] at r1
  have hc1 : cleanL st1.references = true := by rw [r1]; exact hc
  cases d1 with
  | none =>
    have h2 : (some (⟨none, 0, some AmfError.shortRead⟩ : GoReturn), st1) =
        ((some g, st') : Option GoReturn × PState) := h
    injection h2 with hg hst
    injection hg with hg2
    subst hst
    rw [← hg2]
    exact ⟨hc1, fun v he hv => Option.noConfusion (he : some AmfError.shortRead = none)⟩
  | some data =>
    replace h : (match parseValue fuel (Value.mk (data.headD 0) [] Payload.vnil) st1 with
      | (.ok v, st2) => (some (⟨some v, st2.bytesRead, none⟩ : GoReturn), st2)
      | (.err e pv, st2) => (some (⟨some pv, 0, some e⟩ : GoReturn), st2)
      | (.out, st2) => (none, st2)) = (some g, st') := h
    rcases h2 : parseValue fuel (Value.mk (data.headD 0) [] Payload.vnil) st1 with ⟨d2, st2⟩
    rw [h2] at h
    have ih2 := (parse_clean fuel).1 (Value.mk (data.headD 0) [] Payload.vnil) st1 hc1 rfl
    rw [h2] at ih2
    cases d2 with
    | ok v2 =>
      have h3 : (some (⟨some v2, st2.bytesRead, none⟩ : GoReturn), st2) =
          ((some g, st') : Option GoReturn × PState) := h
      injection h3 with hg hst
      injection hg with hg2
      subst hst
      rw [← hg2]
      refine ⟨ih2.1, fun v he hv => ?_⟩
      have hv2 : some v2 = some v := hv
      injection hv2 with hv3
      rw [← hv3]
      exact ih2.2 v2 rfl
    | err e pv =>
      have h3 : (some (⟨some pv, 0, some e⟩ : GoReturn), st2) =
          ((some g, st') : Option GoReturn × PState) := h
      injection h3 with hg hst
      injection hg with hg2
      subst hst
      rw [← hg2]
      exact ⟨ih2.1, fun v he hv => Option.noConfusion (he : some e = none)⟩
    | out =>
      have h3 : ((none : Option GoReturn), st2) =
          ((some g, st') : Option GoReturn × PState) := h
      injection h3 with hg hst
      exact Option.noConfusion hg

/-! ### Byte counter and return-value lemmas for `Parse` -/

/-- The counter grows by exactly the number of bytes actually obtained
from the reader: `io.ReadFull` obtains `min n available` bytes, also
when it then fails. -/
theorem readBytes_count (n : Nat) (st : PState) :
    ((readBytes n st).2).bytesRead = st.bytesRead + min n st.input.length := by
  unfold readBytes
  split
  · next hlen =>
    show st.bytesRead + st.input.length = st.bytesRead + min n st.input.length
    omega
  · next hlen =>
    show st.bytesRead + n = st.bytesRead + min n st.input.length
    omega

/-- On success the returned byte count is the parser's counter. -/
theorem Parse_ok_count (fuel : Nat) (st : PState) (g : GoReturn) (st' : PState)
    (h : Parse fuel st = (some g, st')) (he : g.error = none) :
    g.bytesRead = st'.bytesRead := by
  unfold Parse at h
  rcases h1 : readBytes 1 st with ⟨d1, st1⟩
  rw [h1] at h
  cases d1 with
  | none =>
    have h2 : (some (⟨none, 0, some AmfError.shortRead⟩ : GoReturn), st1) =
        ((some g, st') : Option GoReturn × PState) := h
    injection h2 with hg hst
    injection hg with hg2
    rw [← hg2] at he
    exact Option.noConfusion (he : some AmfError.shortRead = none)
  | some data =>
    replace h : (match parseValue fuel (Value.mk (data.headD 0) [] Payload.vnil) st1 with
      | (.ok v, st2) => (some (⟨some v, st2.bytesRead, none⟩ : GoReturn), st2)
      | (.err e pv, st2) => (some (⟨some pv, 0, some e⟩ : GoReturn), st2)
      | (.out, st2) => (none, st2)) = (some g, st') := h
    rcases h2 : parseValue fuel (Value.mk (data.headD 0) [] Payload.vnil) st1 with ⟨d2, st2⟩
    rw [h2] at h
    cases d2 with
    | ok v2 =>
      have h3 : (some (⟨some v2, st2.bytesRead, none⟩ : GoReturn), st2) =
          ((some g, st') : Option GoReturn × PState) := h
      injection h3 with hg hst
      injection hg with hg2
      rw [← hg2, ← hst]
    | err e pv =>
      have h3 : (some (⟨some pv, 0, some e⟩ : GoReturn), st2) =
          ((some g, st') : Option GoReturn × PState) := h
      injection h3 with hg hst
      injection hg with hg2
      rw [← hg2] at he
      exact Option.noConfusion (he : some e = none)
    | out =>
      have h3 : ((none : Option GoReturn), st2) =
          ((some g, st') : Option GoReturn × PState) := h
      injection h3 with hg hst
      exact Option.noConfusion hg

/-- On failure the returned value is the named return variable as the
panic left it: `nil` when the leading tag read failed, otherwise the
struct with the tag (and possibly a class name) set and no payload. -/
theorem Parse_fail_partial (fuel : Nat) (st : PState) (g : GoReturn) (st' : PState)
    (e : AmfError) (h : Parse fuel st = (some g, st')) (he : g.error = some e) :
    g.value = none ∨ ∃ m nm, g.value = some (Value.mk m nm Payload.vnil) := by
  unfold Parse at h
  rcases h1 : readBytes 1 st with ⟨d1, st1⟩
  rw [h1] at h
  cases d1 with
  | none =>
    have h2 : (some (⟨none, 0, some AmfError.shortRead⟩ : GoReturn), st1) =
        ((some g, st') : Option GoReturn × PState) := h
    injection h2 with hg hst
    injection hg with hg2
    rw [← hg2]
    exact Or.inl rfl
  | some data =>
    replace h : (match parseValue fuel (Value.mk (data.headD 0) [] Payload.vnil) st1 with
      | (.ok v, st2) => (some (⟨some v, st2.bytesRead, none⟩ : GoReturn), st2)
      | (.err e pv, st2) => (some (⟨some pv, 0, some e⟩ : GoReturn), st2)
      | (.out, st2) => (none, st2)) = (some g, st') := h
    rcases h2 : parseValue fuel (Value.mk (data.headD 0) [] Payload.vnil) st1 with ⟨d2, st2⟩
    rw [h2] at h
    cases d2 with
    | ok v2 =>
      have h3 : (some (⟨some v2, st2.bytesRead, none⟩ : GoReturn), st2) =
          ((some g, st') : Option GoReturn × PState) := h
      injection h3 with hg hst
      injection hg with hg2
      rw [← hg2] at he
      exact Option.noConfusion (he : (none : Option AmfError) = some e)
    | err e2 pv =>
      have h3 : (some (⟨some pv, 0, some e2⟩ : GoReturn), st2) =
          ((some g, st') : Option GoReturn × PState) := h
      injection h3 with hg hst
      injection hg with hg2
      rw [← hg2]
      right
      obtain ⟨hm, hp⟩ := parseValue_err_partial fuel _ st1 e2 pv st2 h2
      cases pv with
      | mk m2 nm2 p2 =>
        refine ⟨m2, nm2, ?_⟩
        have hp2 : p2 = Payload.vnil := hp
        show some (Value.mk m2 nm2 p2) = some (Value.mk m2 nm2 Payload.vnil)
        rw [hp2]
    | out =>
      have h3 : ((none : Option GoReturn), st2) =
          ((some g, st') : Option GoReturn × PState) := h
      injection h3 with hg hst
      exact Option.noConfusion hg

/-! ### The end-of-list sentinel path -/

theorem readBytes_zero (st : PState) : readBytes 0 st = (some [], st) := by
  unfold readBytes
  rw [if_neg (by omega)]
  simp

theorem readString_zero (r : List Nat) (refs : List Value) (br : Nat) :
    readString Amf0.String ⟨0 :: 0 :: r, refs, br⟩ =
      (.ok ([], 0), ⟨r, refs, br + 2⟩) := by
  unfold readString
  rw [if_pos rfl, readBytes_two]
  exact (by rw [readBytes_zero] :
    (match readBytes 0 (⟨r, refs, br + 2⟩ : PState) with
      | (none, st2) => ((Except.error AmfError.shortRead :
          Except AmfError (List Nat × Nat)), st2)
      | (some s, st2) => (Except.ok (s, 0), st2)) =
      (Except.ok (([] : List Nat), 0), (⟨r, refs, br + 2⟩ : PState)))

theorem properties_sentinel (f b : Nat) (r : List Nat) (refs : List Value) (br : Nat) :
    parseProperties (f + 1) ⟨0 :: 0 :: b :: r, refs, br⟩ =
      if b = Amf0.ObjectEnd then (.ok [], ⟨r, refs, br + 3⟩)
      else (.err .malformedStream, ⟨r, refs, br + 3⟩) := by
  rw [parseProperties, readString_zero]
  have h23 : br + 2 + 1 = br + 3 := by omega
  exact (by rw [readBytes_one, h23]; rfl :
    checkEnd (readBytes 1 (⟨b :: r, refs, br + 2⟩ : PState)) =
      if b = Amf0.ObjectEnd then ((LRes.ok [], ⟨r, refs, br + 3⟩) : LRes × PState)
      else (.err .malformedStream, ⟨r, refs, br + 3⟩))

/-! ## The claims -/

/-- C1: the spec claims that on failure `Parse` returns the cumulative
number of bytes consumed before the failure (3 for the stream
`[0x07, 0x00, 0x00]` with an empty table).  The code does fail with
`InvalidReference` there and its internal counter holds 3 (the final
state), but the named return `bytesRead` is never assigned before the
panic, so the call returns 0.  This evaluation exhibits the run at the
spec's own Scenario D. -/
theorem parse_invalid_reference_returns_zero_count :
    Parse 10 (New [0x07, 0x00, 0x00]) =
      (some ⟨some (Value.mk 7 [] .vnil), 0, some .invalidReference⟩,
       ⟨[], [], 3⟩) := rfl

/-- C2 counterexample: on the 1-byte stream `[0x00]` `Parse` fails with
a short read, yet the returned value is not the zero value (`nil`): it
is the allocated struct with the tag byte already stored. -/
theorem parse_failure_value_not_zero :
    Parse 10 (New [0x00]) =
      (some ⟨some (Value.mk 0 [] .vnil), 0, some .shortRead⟩, ⟨[], [], 1⟩) ∧
    some (Value.mk 0 [] Payload.vnil) ≠ (none : Option Value) :=
  ⟨rfl, fun hx => Option.noConfusion hx⟩

/-- C2 (amended): on failure `Parse` returns either `nil` (the leading
tag read itself failed) or a partially initialised Value that carries at
most a marker and a name and always an empty payload — no partially
built tree of children is ever returned. -/
theorem parse_failure_partial_value (fuel : Nat) (st : PState) (g : GoReturn)
    (st' : PState) (e : AmfError) (h : Parse fuel st = (some g, st'))
    (he : g.error = some e) :
    g.value = none ∨ ∃ m nm, g.value = some (Value.mk m nm Payload.vnil) :=
  Parse_fail_partial fuel st g st' e h he

/-- C2 witness: a TypedObject stream that fails after its class name was
stored; the returned value has marker `0x10`, name `"a"` and no payload. -/
theorem parse_failure_partial_value_witness :
    (⟨some (Value.mk 16 [97] Payload.vnil), 0, some AmfError.shortRead⟩ : GoReturn).value =
        none ∨
      ∃ m nm, (⟨some (Value.mk 16 [97] Payload.vnil), 0,
        some AmfError.shortRead⟩ : GoReturn).value = some (Value.mk m nm Payload.vnil) :=
  parse_failure_partial_value 10 (New [0x10, 0x00, 0x01, 97])
    ⟨some (Value.mk 16 [97] Payload.vnil), 0, some AmfError.shortRead⟩
    ⟨[], [], 4⟩ AmfError.shortRead rfl rfl

set_option maxHeartbeats 2000000 in
/-- C3 counterexample: `p.references` is a `Parser` field that `Parse`
never clears.  After a first `Parse` call decodes an empty Object
(registering table entry 0), a second `Parse` call on the same Parser
successfully resolves a backreference to that entry — table state
persists across calls, contradicting the claim. -/
theorem reference_table_persists_across_calls :
    Parse 10 (New [0x03, 0x00, 0x00, 0x09, 0x07, 0x00, 0x00]) =
      (some ⟨some (Value.mk 3 [] (.varr [])), 4, none⟩,
       ⟨[0x07, 0x00, 0x00], [Value.mk 3 [] (.varr [])], 4⟩) ∧
    Parse 10 ⟨[0x07, 0x00, 0x00], [Value.mk 3 [] (.varr [])], 4⟩ =
      (some ⟨some (Value.mk 3 [] (.varr [])), 7, none⟩,
       ⟨[], [Value.mk 3 [] (.varr [])], 7⟩) :=
  ⟨rfl, rfl⟩

/-- C3 (amended): the Reference Table is created empty when the Parser
is created (`New`) and is only ever appended to by `Parse`; it persists
across `Parse` calls on the same Parser, so a fresh table requires a
fresh Parser. -/
theorem reference_table_lifetime :
    (∀ input : List Nat, (New input).references = []) ∧
    (∀ (fuel : Nat) (st : PState),
      ∃ l, ((Parse fuel st).2).references = st.references ++ l) :=
  ⟨fun _ => rfl, fun fuel st => (Parse_step fuel st).2.2⟩

/-- C4: decoding a Reference-tagged value whose 2-byte big-endian index
is at least the current table length fails with `InvalidReference`; a
strictly smaller index always resolves without failure.  Both halves are
one equation on the two index bytes (the signed Go comparison
`int(index) > len(p.references)-1` is exactly `length ≤ index`). -/
theorem reference_bounds_check (f : Nat) (nm : List Nat) (p : Payload) (a b : Nat)
    (r : List Nat) (refs : List Value) (br : Nat) :
    parseValue (f + 1) (Value.mk Amf0.Reference nm p) ⟨a :: b :: r, refs, br⟩ =
      if refs.length ≤ beBytes [a, b] then
        (.err .invalidReference (Value.mk Amf0.Reference nm p), ⟨r, refs, br + 2⟩)
      else
        (.ok (Value.mk (refs.getD (beBytes [a, b]) (Value.mk 0 [] .vnil)).marker nm
              (refs.getD (beBytes [a, b]) (Value.mk 0 [] .vnil)).payload),
         ⟨r, refs, br + 2⟩) := by
  have hd : parseValue (f + 1) (Value.mk Amf0.Reference nm p) ⟨a :: b :: r, refs, br⟩ =
      caseReference (Value.mk Amf0.Reference nm p) ⟨a :: b :: r, refs, br⟩ := rfl
  rw [hd, caseReference_spec]
  rfl

/-- C5: a Reference with a valid index `i` produces a Value carrying the
tag and the payload of table entry `i` (deep equality is equality of the
embedded values) while keeping its own name slot. -/
theorem reference_resolution (f : Nat) (nm : List Nat) (p : Payload) (a b : Nat)
    (r : List Nat) (refs : List Value) (br : Nat)
    (h : beBytes [a, b] < refs.length) :
    parseValue (f + 1) (Value.mk Amf0.Reference nm p) ⟨a :: b :: r, refs, br⟩ =
      (.ok (Value.mk (refs.getD (beBytes [a, b]) (Value.mk 0 [] .vnil)).marker nm
            (refs.getD (beBytes [a, b]) (Value.mk 0 [] .vnil)).payload),
       ⟨r, refs, br + 2⟩) := by
  have hd : parseValue (f + 1) (Value.mk Amf0.Reference nm p) ⟨a :: b :: r, refs, br⟩ =
      caseReference (Value.mk Amf0.Reference nm p) ⟨a :: b :: r, refs, br⟩ := rfl
  rw [hd, caseReference_spec, if_neg (by omega)]
  rfl

/-- C5 witness: resolving index 0 against a one-entry table copies that
entry's tag and payload onto a value that keeps its own name `"x"`. -/
theorem reference_resolution_witness :
    beBytes [0, 0] < ([Value.mk 3 [] (.varr [])] : List Value).length ∧
    parseValue 1 (Value.mk Amf0.Reference [120] Payload.vnil)
        ⟨[0, 0], [Value.mk 3 [] (.varr [])], 0⟩ =
      (.ok (Value.mk 3 [120] (.varr [])), ⟨[], [Value.mk 3 [] (.varr [])], 2⟩) :=
  ⟨by decide,
   reference_resolution 0 [120] Payload.vnil 0 0 [] [Value.mk 3 [] (.varr [])] 0 (by decide)⟩

set_option maxHeartbeats 2000000 in
/-- C6 counterexample: a successfully decoded stream in which a
StrictArray declares element tag byte `0x07` (Reference).  The single
decoded element carries marker `0x03` (the referent's tag), not the
declared tag `0x07` — so "every element carries the single declared
shared tag" fails as stated when the declared tag is the backreference
tag. -/
theorem strict_array_reference_element_changes_tag :
    Parse 10 (New [0x03, 0x00, 0x01, 97, 0x03, 0x00, 0x00, 0x09,
        0x00, 0x01, 98, 0x0A, 0x00, 0x00, 0x00, 0x01, 0x07, 0x00, 0x00,
        0x00, 0x00, 0x09]) =
      (some ⟨some (Value.mk 3 [] (.varr [Value.mk 3 [97] (.varr []),
          Value.mk 10 [98] (.varr [Value.mk 3 [] (.varr [])])])), 22, none⟩,
       ⟨[], [Value.mk 3 [97] (.varr []),
          Value.mk 3 [] (.varr [Value.mk 3 [97] (.varr []),
            Value.mk 10 [98] (.varr [Value.mk 3 [] (.varr [])])])], 22⟩) ∧
    (3 : Nat) ≠ 7 := by
  refine ⟨?_, by decide⟩
  simp [Parse, New, parseValue, parseProperties, parseArray, caseNumber, caseBoolean,
    caseString, caseReference, caseDate, register, finishArray, checkEnd, consRes,
    readBytes, readString, readDouble, beBytes, toInt32,
    Value.marker, Value.name, Value.payload, Value.withPayload, Value.withName,
    Number, Boolean, String, Object, Movieclip, Null, Undefined, Reference, ECMAArray,
    ObjectEnd, StrictArray, Date, LongString, Unsupported, Recordset, XmlDocument,
    TypedObject, AvmPlusObject, List.getD]

/-- C6 (amended): a successfully decoded StrictArray with declared
4-byte count `n` and declared element tag byte `t` produces exactly `n`
elements, and every element carries the tag `t` whenever `t` is not the
backreference tag (a Reference-tagged element instead carries its
referent's tag). -/
theorem strict_array_count_and_tags (f : Nat) (nm : List Nat) (p : Payload)
    (b0 b1 b2 b3 t : Nat) (rest : List Nat) (refs : List Value) (br : Nat)
    (v' : Value) (st' : PState)
    (h : parseValue (f + 1) (Value.mk Amf0.StrictArray nm p)
        ⟨b0 :: b1 :: b2 :: b3 :: t :: rest, refs, br⟩ = (.ok v', st')) :
    ∃ l, v'.payload = .varr l ∧ l.length = beBytes [b0, b1, b2, b3] ∧
      (t ≠ Amf0.Reference → ∀ v ∈ l, v.marker = t) := by
  rw [strict_spec f (Value.mk Amf0.StrictArray nm p) b0 b1 b2 b3 t rest refs br rfl] at h
  obtain ⟨values, hok, hv⟩ := finishArray_ok _ _ _ (congrArg Prod.fst h)
  rcases hpa : parseArray f t (beBytes [b0, b1, b2, b3]) ⟨rest, refs, br + 5⟩ with ⟨d, st2⟩
  rw [hpa] at hok
  have hok2 : d = LRes.ok values := hok
  rw [hok2] at hpa
  obtain ⟨hlen, hmk⟩ :=
    parseArray_ok f t (beBytes [b0, b1, b2, b3]) ⟨rest, refs, br + 5⟩ values st2 hpa
  exact ⟨values, by rw [hv, Value.withPayload_payload], hlen, hmk⟩

set_option maxHeartbeats 2000000 in
/-- C6 witness: a StrictArray of declared count 1 and declared element
tag `0x00` (Number) produces one element tagged `0x00`. -/
theorem strict_array_count_and_tags_witness :
    ∃ l, (Value.mk 10 [] (.varr [Value.mk 0 [] (.vnum 0)])).payload = .varr l ∧
      l.length = beBytes [0, 0, 0, 1] ∧
      ((0 : Nat) ≠ Amf0.Reference → ∀ v ∈ l, v.marker = 0) :=
  strict_array_count_and_tags 2 [] Payload.vnil 0 0 0 1 0
    [0, 0, 0, 0, 0, 0, 0, 0] [] 0
    (Value.mk 10 [] (.varr [Value.mk 0 [] (.vnum 0)])) ⟨[], [], 13⟩ (by
  simp [Parse, New, parseValue, parseProperties, parseArray, caseNumber, caseBoolean,
    caseString, caseReference, caseDate, register, finishArray, checkEnd, consRes,
    readBytes, readString, readDouble, beBytes, toInt32,
    Value.marker, Value.name, Value.payload, Value.withPayload, Value.withName,
    Number, Boolean, String, Object, Movieclip, Null, Undefined, Reference, ECMAArray,
    ObjectEnd, StrictArray, Date, LongString, Unsupported, Recordset, XmlDocument,
    TypedObject, AvmPlusObject, List.getD])

/-- C7: starting from a clean Reference Table (in particular the empty
table of a fresh Parser), the tree returned by a successful `Parse`
contains no Value carrying the backreference tag at any depth: `cleanV`
recursively checks every node, array element and named property. -/
theorem no_reference_marker_in_tree (fuel : Nat) (st : PState) (g : GoReturn)
    (st' : PState) (v : Value) (h : Parse fuel st = (some g, st'))
    (hc : cleanL st.references = true) (he : g.error = none)
    (hv : g.value = some v) : cleanV v = true :=
  (Parse_clean fuel st g st' h hc).2 v he hv

set_option maxHeartbeats 2000000 in
/-- C7 witness: the tree decoded from a stream containing a resolved
backreference is clean. -/
theorem no_reference_marker_in_tree_witness :
    cleanV (Value.mk 3 [] (.varr [Value.mk 3 [97] (.varr []),
      Value.mk 10 [98] (.varr [Value.mk 3 [] (.varr [])])])) = true :=
  no_reference_marker_in_tree 10
    (New [0x03, 0x00, 0x01, 97, 0x03, 0x00, 0x00, 0x09,
      0x00, 0x01, 98, 0x0A, 0x00, 0x00, 0x00, 0x01, 0x07, 0x00, 0x00,
      0x00, 0x00, 0x09])
    ⟨some (Value.mk 3 [] (.varr [Value.mk 3 [97] (.varr []),
      Value.mk 10 [98] (.varr [Value.mk 3 [] (.varr [])])])), 22, none⟩
    ⟨[], [Value.mk 3 [97] (.varr []),
      Value.mk 3 [] (.varr [Value.mk 3 [97] (.varr []),
        Value.mk 10 [98] (.varr [Value.mk 3 [] (.varr [])])])], 22⟩
    (Value.mk 3 [] (.varr [Value.mk 3 [97] (.varr []),
      Value.mk 10 [98] (.varr [Value.mk 3 [] (.varr [])])]))
    (by
  simp [Parse, New, parseValue, parseProperties, parseArray, caseNumber, caseBoolean,
    caseString, caseReference, caseDate, register, finishArray, checkEnd, consRes,
    readBytes, readString, readDouble, beBytes, toInt32,
    Value.marker, Value.name, Value.payload, Value.withPayload, Value.withName,
    Number, Boolean, String, Object, Movieclip, Null, Undefined, Reference, ECMAArray,
    ObjectEnd, StrictArray, Date, LongString, Unsupported, Recordset, XmlDocument,
    TypedObject, AvmPlusObject, List.getD]) rfl rfl rfl

set_option maxHeartbeats 2000000 in
/-- C8: reference-table order for all three complex kinds.  (1) An
Object-tagged value is appended to the table only after its entire
property list has been decoded: the registered entry is the finished
value and the append lands on the state left by the property-list
decode.  (2) The same for an ECMAArray-tagged value (after its
discarded count field and completed property list).  (3) The same for a
TypedObject-tagged value (after its class name and completed property
list).  (4) The table is append-only through any decode step.  (5) In a
concrete stream of nested Objects the inner object gets index 0 and its
enclosing object index 1.  (6) In a concrete stream of an ECMAArray
nested inside a TypedObject, the inner ECMAArray gets index 0 and the
enclosing TypedObject index 1: entries appear in the order the complex
values finish decoding. -/
theorem reference_table_registration_order :
    (∀ (f : Nat) (v : Value) (st : PState) (props : List Value) (st1 : PState),
      v.marker = Amf0.Object → parseProperties f st = (.ok props, st1) →
      parseValue (f + 1) v st =
        (.ok (v.withPayload (.varr props)),
         { st1 with references := st1.references ++ [v.withPayload (.varr props)] })) ∧
    (∀ (f : Nat) (v : Value) (st : PState) (data : List Nat) (st1 : PState)
        (props : List Value) (st2 : PState),
      v.marker = Amf0.ECMAArray → readBytes 4 st = (some data, st1) →
      parseProperties f st1 = (.ok props, st2) →
      parseValue (f + 1) v st =
        (.ok (v.withPayload (.varr props)),
         { st2 with references := st2.references ++ [v.withPayload (.varr props)] })) ∧
    (∀ (f : Nat) (v : Value) (st : PState) (nb : List Nat) (len : Nat) (st1 : PState)
        (props : List Value) (st2 : PState),
      v.marker = Amf0.TypedObject → readString Amf0.String st = (.ok (nb, len), st1) →
      parseProperties f st1 = (.ok props, st2) →
      parseValue (f + 1) v st =
        (.ok ((v.withName nb).withPayload (.varr props)),
         { st2 with references :=
            st2.references ++ [(v.withName nb).withPayload (.varr props)] })) ∧
    (∀ (fuel : Nat) (v : Value) (st : PState),
      ∃ l, ((parseValue fuel v st).2).references = st.references ++ l) ∧
    Parse 10 (New [0x03, 0x00, 0x01, 97, 0x03, 0x00, 0x00, 0x09, 0x00, 0x00, 0x09]) =
      (some ⟨some (Value.mk 3 [] (.varr [Value.mk 3 [97] (.varr [])])), 11, none⟩,
       ⟨[], [Value.mk 3 [97] (.varr []),
         Value.mk 3 [] (.varr [Value.mk 3 [97] (.varr [])])], 11⟩) ∧
    Parse 10 (New [0x10, 0x00, 0x01, 84, 0x00, 0x01, 97, 0x08, 0x00, 0x00, 0x00, 0x00,
        0x00, 0x00, 0x09, 0x00, 0x00, 0x09]) =
      (some ⟨some (Value.mk 16 [84] (.varr [Value.mk 8 [97] (.varr [])])), 18, none⟩,
       ⟨[], [Value.mk 8 [97] (.varr []),
         Value.mk 16 [84] (.varr [Value.mk 8 [97] (.varr [])])], 18⟩) := by
  refine ⟨?_, ?_, ?_, ?_, rfl, ?_⟩
  · intro f v st props st1 hv hp
    rw [object_spec f v st hv, hp]
    rfl
  · intro f v st data st1 props st2 hv h4 hp
    rw [ecma_spec f v st hv, h4]
    show register v (parseProperties f st1) = _
    rw [hp]
    rfl
  · intro f v st nb len st1 props st2 hv hs hp
    rw [typed_spec f v st hv, hs]
    show register (v.withName nb) (parseProperties f st1) = _
    rw [hp]
    rfl
  · intro fuel v st
    exact (parseValue_step fuel v st).2.2
  · simp [Parse, New, parseValue, parseProperties, parseArray, caseNumber, caseBoolean,
      caseString, caseReference, caseDate, register, finishArray, checkEnd, consRes,
      readBytes, readString, readDouble, beBytes, toInt32,
      Value.marker, Value.name, Value.payload, Value.withPayload, Value.withName,
      Number, Boolean, String, Object, Movieclip, Null, Undefined, Reference, ECMAArray,
      ObjectEnd, StrictArray, Date, LongString, Unsupported, Recordset, XmlDocument,
      TypedObject, AvmPlusObject, List.getD]

/-- C8 witness: each of the three complex kinds registered on the state
left by its completed property-list decode, at concrete inputs. -/
theorem reference_table_registration_order_witness :
    parseValue 6 (Value.mk 3 [] Payload.vnil) ⟨[0x00, 0x00, 0x09], [], 0⟩ =
      (.ok (Value.mk 3 [] (.varr [])), ⟨[], [Value.mk 3 [] (.varr [])], 3⟩) ∧
    parseValue 6 (Value.mk 8 [] Payload.vnil)
        ⟨[0x00, 0x00, 0x00, 0x00, 0x00, 0x00, 0x09], [], 0⟩ =
      (.ok (Value.mk 8 [] (.varr [])), ⟨[], [Value.mk 8 [] (.varr [])], 7⟩) ∧
    parseValue 6 (Value.mk 16 [] Payload.vnil) ⟨[0x00, 0x01, 84, 0x00, 0x00, 0x09], [], 0⟩ =
      (.ok (Value.mk 16 [84] (.varr [])), ⟨[], [Value.mk 16 [84] (.varr [])], 6⟩) :=
  ⟨reference_table_registration_order.1 5 (Value.mk 3 [] Payload.vnil)
    ⟨[0x00, 0x00, 0x09], [], 0⟩ [] ⟨[], [], 3⟩ rfl rfl,
   reference_table_registration_order.2.1 5 (Value.mk 8 [] Payload.vnil)
    ⟨[0x00, 0x00, 0x00, 0x00, 0x00, 0x00, 0x09], [], 0⟩ [0x00, 0x00, 0x00, 0x00]
    ⟨[0x00, 0x00, 0x09], [], 4⟩ [] ⟨[], [], 7⟩ rfl rfl rfl,
   reference_table_registration_order.2.2.1 5 (Value.mk 16 [] Payload.vnil)
    ⟨[0x00, 0x01, 84, 0x00, 0x00, 0x09], [], 0⟩ [84] 1 ⟨[0x00, 0x00, 0x09], [], 3⟩
    [] ⟨[], [], 6⟩ rfl rfl rfl⟩

set_option maxHeartbeats 2000000 in
/-- C9: in the property-list loop, a zero-length key must be followed by
the sentinel byte `0x09`: if it is, the list ends successfully; any
other byte fails with `MalformedStream`.  The second conjunct shows a
list accumulating one property before a successful sentinel. -/
theorem property_list_sentinel :
    (∀ (f b : Nat) (r : List Nat) (refs : List Value) (br : Nat),
      parseProperties (f + 1) ⟨0 :: 0 :: b :: r, refs, br⟩ =
        if b = Amf0.ObjectEnd then (.ok [], ⟨r, refs, br + 3⟩)
        else (.err .malformedStream, ⟨r, refs, br + 3⟩)) ∧
    parseProperties 10 ⟨[0x00, 0x01, 97, 0x05, 0x00, 0x00, 0x09], [], 0⟩ =
      (.ok [Value.mk 5 [97] .vnil], ⟨[], [], 7⟩) :=
  ⟨fun f b r refs br => properties_sentinel f b r refs br, rfl⟩

/-- C10: the consumed-byte counter is never reset: each read adds
exactly the number of bytes actually obtained (`min n available`, also
on a failing partial read), `Parse` only ever increases the counter by
what it removed from the stream, and a successful call returns the
cumulative counter — which therefore includes the bytes consumed by all
earlier calls on the same Parser. -/
theorem bytes_read_cumulative :
    (∀ (n : Nat) (st : PState),
      ((readBytes n st).2).bytesRead = st.bytesRead + min n st.input.length) ∧
    (∀ (fuel : Nat) (st : PState),
      ((Parse fuel st).2).bytesRead + ((Parse fuel st).2).input.length =
          st.bytesRead + st.input.length ∧
        st.bytesRead ≤ ((Parse fuel st).2).bytesRead) ∧
    (∀ (fuel : Nat) (st : PState) (g : GoReturn) (st' : PState),
      Parse fuel st = (some g, st') → g.error = none →
      g.bytesRead = st'.bytesRead) :=
  ⟨readBytes_count,
   fun fuel st => ⟨(Parse_step fuel st).1, (Parse_step fuel st).2.1⟩,
   Parse_ok_count⟩

set_option maxHeartbeats 2000000 in
/-- C10 witness: a second `Parse` call on a Parser that already consumed
one byte returns count 2 — its own byte plus the earlier call's. -/
theorem bytes_read_cumulative_witness :
    Parse 10 ⟨[0x05], [], 1⟩ =
      (some ⟨some (Value.mk 5 [] .vnil), 2, none⟩, ⟨[], [], 2⟩) ∧
    (⟨some (Value.mk 5 [] .vnil), 2, none⟩ : GoReturn).bytesRead =
      (⟨[], [], 2⟩ : PState).bytesRead :=
  ⟨rfl, bytes_read_cumulative.2.2 10 ⟨[0x05], [], 1⟩
    ⟨some (Value.mk 5 [] .vnil), 2, none⟩ ⟨[], [], 2⟩ rfl rfl⟩

end Amf0
